import Mathlib

/-!
Verification of the blurry-image-placeholder transformer
(`packages/optimizer/lib/transformers/AddBlurryImagePlaceholders.js`).

The source is a JavaScript document transform.  The embedding below is a
shallow translation of that file:

* the parse5 document tree is modelled as a rose tree `DomNode` of elements
  (tag name, attribute map as an association list, ordered children); text
  nodes can be represented as attribute-less nodes with a non-element tag
  and are inert for every predicate of the transform;
* JS truthiness on attribute lookups (`undefined` or `""` is falsy) is made
  explicit through `Option String`;
* `jimp` (image decode / resize / base64 encode), the WHATWG `URL`
  constructor and the process working directory are external collaborators
  and enter the model as components of an environment `Env`;
* IEEE-754 arithmetic of `getBitmapDimensions_` is modelled exactly over `ℚ`
  (`Math.round ∘ Math.sqrt` becomes `roundSqrt`, proved below to be the
  half-up rounding of the exact square root), and the JS special values
  produced by division by zero are modelled by `JsDim`;
* the repository helpers that the file imports but that are not part of the
  analysed sources (`Node.nextNode`, `skipNodeAndChildren`,
  `firstChildByTag`, `appendChild`) are modelled from the specification, as
  flagged in their doc comments.
-/

namespace AmpOptimizer

/-- Element node of the parse5 document tree: tag name, attribute map
(association list, first binding wins) and ordered children.  Text nodes are
representable as nodes with a non-element tag and no attributes; they carry
no attribute and never qualify, exactly as in the source. -/
inductive DomNode : Type where
  | elem : String → List (String × String) → List DomNode → DomNode
deriving Repr

/-- Tag name of a node (`node.tagName`). -/
def DomNode.tagName : DomNode → String
  | .elem t _ _ => t

/-- Attribute map of a node (`node.attribs`). -/
def DomNode.attribs : DomNode → List (String × String)
  | .elem _ a _ => a

/-- Ordered children of a node (`node.childNodes`). -/
def DomNode.childNodes : DomNode → List DomNode
  | .elem _ _ cs => cs

/-- Attribute lookup: `node.attribs.x` is `undefined` (here `none`) when the
attribute is absent, otherwise its string value. -/
def DomNode.getAttr (n : DomNode) (a : String) : Option String :=
  (n.attribs.find? (fun p => p.1 = a)).map (fun p => p.2)

/-- JS truthiness of an attribute value: `undefined` and the empty string
are falsy (`if (!src)`). -/
def jsTruthy : Option String → Bool
  | none => false
  | some s => !(s = "")

/-- Model of JS `String#endsWith` (case-sensitive suffix test). -/
def jsEndsWith (s suf : String) : Bool :=
  suf.data.isSuffixOf s.data

/-- Constant `PIXEL_TARGET = 60` — the pixel-count budget of the thumbnail. -/
def PIXEL_TARGET : ℚ := 60

/-- Constant `MAX_BLURRED_PLACEHOLDERS = 5` — the per-document cap. -/
def MAX_BLURRED_PLACEHOLDERS : ℕ := 5

/-- The fixed substitution table `ESCAPE_TABLE` of the source: the six
characters replaced when the SVG markup is embedded in a data URI; every
other character has no entry. -/
def ESCAPE_TABLE (c : Char) : Option String :=
  if c = '#' then some "%23"
  else if c = '%' then some "%25"
  else if c = ':' then some "%3A"
  else if c = '<' then some "%3C"
  else if c = '>' then some "%3E"
  else if c = '"' then some "'"
  else none

/-- The replacement callback `escaper`: a matched character is replaced by
its table entry, any other character is kept. -/
def escaper (c : Char) : String :=
  match ESCAPE_TABLE c with
  | some r => r
  | none => String.singleton c

/-- `svg.replace(ESCAPE_REGEX, escaper)`: the regex is an alternation of the
six single characters of the table, applied globally, so the replacement is
a single left-to-right pass mapping each character through `escaper`;
replacement text is emitted verbatim and never rescanned. -/
def escapeList (l : List Char) : List Char :=
  match l with
  | [] => []
  | c :: rest => (escaper c).data ++ escapeList rest

/-- String form of the escaping pass. -/
def escapeStr (s : String) : String :=
  ⟨escapeList s.data⟩

/-- Whitespace class of the JS regex `\s` restricted to the characters that
can occur in the template literal (spaces and line breaks; the other JS
whitespace code points are included for completeness of the ASCII range). -/
def isJsWs (c : Char) : Bool :=
  c = ' ' ∨ c = '\n' ∨ c = '\t' ∨ c = '\r' ∨ c = '\x0b' ∨ c = '\x0c'

/-- Character scanner for `svg.replace(/\s+/g, ' ')`: the flag records
whether the previous character belonged to a whitespace run, in which case
further whitespace of the same run emits nothing; the first character of a
run emits one space. -/
def collapseWsAux : Bool → List Char → List Char
  | _, [] => []
  | inRun, c :: rest =>
      if isJsWs c then
        (if inRun then [] else [' ']) ++ collapseWsAux true rest
      else c :: collapseWsAux false rest

/-- `svg.replace(/\s+/g, ' ')`: every maximal run of whitespace becomes one
space. -/
def collapseWs (l : List Char) : List Char :=
  collapseWsAux false l

/-- String form of the whitespace collapse. -/
def collapseWsStr (s : String) : String :=
  ⟨collapseWs s.data⟩

/-- `svg.replace(/> </g, '><')`: every occurrence of the three-character
pattern is contracted; scanning resumes after a match, as with a global
regex. -/
def replaceGtLt : List Char → List Char
  | '>' :: ' ' :: '<' :: rest => '>' :: '<' :: replaceGtLt rest
  | c :: rest => c :: replaceGtLt rest
  | [] => []

/-- String form of the `"> <"` contraction. -/
def replaceGtLtStr (s : String) : String :=
  ⟨replaceGtLt s.data⟩

/-- The template literal of `addBlurryPlaceholder_` (lines 113–126),
byte-for-byte, with the three interpolations `dataURI.width`,
`dataURI.height` and `dataURI.src` as parameters. -/
def buildSvg (w h uri : String) : String :=
  "<svg xmlns=\"http://www.w3.org/2000/svg\"\n" ++
  "                      xmlns:xlink=\"http://www.w3.org/1999/xlink\"\n" ++
  "                      viewBox=\"0 0 " ++ w ++ " " ++ h ++ "\">\n" ++
  "                      <filter id=\"b\" color-interpolation-filters=\"sRGB\">\n" ++
  "                        <feGaussianBlur stdDeviation=\".5\"></feGaussianBlur>\n" ++
  "                        <feComponentTransfer>\n" ++
  "                          <feFuncA type=\"discrete\" tableValues=\"1 1\"></feFuncA>\n" ++
  "                        </feComponentTransfer>\n" ++
  "                      </filter>\n" ++
  "                      <image filter=\"url(#b)\" x=\"0\" y=\"0\"\n" ++
  "                        height=\"100%\" width=\"100%\"\n" ++
  "                        xlink:href=\"" ++ uri ++ "\">\n" ++
  "                      </image>\n" ++
  "                    </svg>"

/-- Final value stored into `img.attribs.src`: the collapsed, contracted and
escaped SVG markup behind the fixed data-URI prefix (lines 130–134). -/
def placeholderSrcAttr (w h uri : String) : String :=
  "data:image/svg+xml;charset=utf-8," ++
    escapeStr (replaceGtLtStr (collapseWsStr (buildSvg w h uri)))

/-- Result component of `getBitmapDimensions_`: a JS number that is either a
(rounded, hence integral) finite value, `Infinity`, or `NaN`.  The special
values arise from the unguarded divisions when a source dimension is zero. -/
inductive JsDim : Type where
  | fin : ℤ → JsDim
  | posInf : JsDim
  | nan : JsDim
deriving Repr, DecidableEq

/-- Rendering of a `JsDim` by a JS template literal interpolation. -/
def jsDimStr : JsDim → String
  | .fin n => toString n
  | .posInf => "Infinity"
  | .nan => "NaN"

/-- Half-up rounding `Math.round` over exact rationals:
`Math.round(q) = ⌊q + 1/2⌋`. -/
def jsRound (q : ℚ) : ℤ :=
  ⌊q + 1 / 2⌋

/-- Exact value of `Math.round(Math.sqrt(q))` for a nonnegative rational
`q`: the half-up rounding of the (generally irrational) square root,
computed without leaving `ℚ`.  Characterised by `roundSqrt_le` and
`roundSqrt_gt` below: it is the unique `n` with
`(2*n - 1)^2 ≤ 4*q < (2*n + 1)^2` (reading the lower bound as vacuous for
`n = 0`). -/
def roundSqrt (q : ℚ) : ℕ :=
  (Nat.sqrt (⌊4 * q⌋).toNat + 1) / 2

/-- Shallow embedding of `getBitmapDimensions_(imgWidth, imgHeight)`
(lines 199–217), returning `(width, height)`.

The source computes, in IEEE-754 doubles,
`ratioWH = imgWidth / imgHeight`, `bitmapHeight = sqrt(60 / ratioWH)`,
`bitmapWidth = 60 / bitmapHeight`, and returns both rounded.  Over exact
arithmetic `bitmapHeight = sqrt(60 * imgHeight / imgWidth)` and
`bitmapWidth = 60 / bitmapHeight = sqrt(60 * imgWidth / imgHeight)`, so for
positive inputs the rounded results are `roundSqrt` of those two rationals
(the float computation is modelled exactly; no rounding of the intermediate
`bitmapHeight` happens before the division producing `bitmapWidth`).

When a dimension is zero the JS divisions produce special values instead of
failing: for `imgHeight = 0 < imgWidth`, `ratioWH = Infinity`, so
`bitmapHeight = sqrt(60 / Infinity) = 0` and `bitmapWidth = 60 / 0 =
Infinity`; for `imgWidth = 0 < imgHeight`, `ratioWH = 0`, so `bitmapHeight =
sqrt(Infinity) = Infinity` and `bitmapWidth = 60 / Infinity = 0`; for
`0 / 0` everything is `NaN`.  `Math.round` is the identity on `Infinity`
and `NaN`. -/
def getBitmapDimensions_ (imgWidth imgHeight : ℕ) : JsDim × JsDim :=
  if imgWidth = 0 then
    if imgHeight = 0 then (JsDim.nan, JsDim.nan)
    else (JsDim.fin 0, JsDim.posInf)
  else if imgHeight = 0 then (JsDim.posInf, JsDim.fin 0)
  else
    (JsDim.fin (roundSqrt (PIXEL_TARGET * imgWidth / imgHeight)),
     JsDim.fin (roundSqrt (PIXEL_TARGET * imgHeight / imgWidth)))

/-- Width component of the sizing algorithm as the specification words it:
`w = round(P / h)` where `h = round(sqrt(P / r))` is the already-rounded
height.  Stated only to be compared against `getBitmapDimensions_`, which
divides by the unrounded height. -/
def specSizeWidth (imgWidth imgHeight : ℕ) : ℤ :=
  jsRound (PIXEL_TARGET / (roundSqrt (PIXEL_TARGET * imgHeight / imgWidth) : ℚ))

/-- Modelled from the spec: the resolution step of Node's `path` module
(posix), which the repository uses but whose code is external.  An absolute
path string is normalised: empty and `"."` segments vanish, `".."` pops a
segment (and is dropped at the root), and the result is re-joined behind a
leading slash, which is exactly the §4.1 contract "join them, and return an
absolute filesystem path". -/
def normSegs : List String → List String → List String
  | acc, [] => acc.reverse
  | acc, p :: rest =>
      if p = "" ∨ p = "." then normSegs acc rest
      else if p = ".." then normSegs (acc.drop 1) rest
      else normSegs (p :: acc) rest

/-- Modelled from the spec: `path.resolve(p)` against a working directory
`cwd` (always absolute in a running process): a relative `p` is prefixed
with `cwd`, and the result is normalised into an absolute path. -/
def pathResolveCwd (cwd p : String) : String :=
  let full := if p.data.head? = some '/' then p else cwd ++ "/" ++ p
  "/" ++ String.intercalate "/" (normSegs [] (full.splitOn "/"))

/-- Modelled from the spec: `path.join(base, p)` — empty segments are
skipped and the remainder joined with a slash (`"."` for the empty join);
its internal normalisation is omitted because `resolvePath_` immediately
re-normalises through `path.resolve`, which yields the same resolved
path. -/
def pathJoin (a b : String) : String :=
  if a = "" then (if b = "" then "." else b)
  else if b = "" then a
  else a ++ "/" ++ b

/-- External collaborators of the transformer, gathered as an environment:
`urlParse p base` is `new URL(p, base).toString()` (`none` when the
constructor throws), `cwd` is the process working directory used by
`path.resolve`, `decode` is `jimp.read` reduced to the decoded bitmap's
`(width, height)` (`none` when the read/decode fails), `base64` is the
data-URI the resize/PNG-encode pipeline produces for a resolved source, and
`imageBasePath` is the runtime option of the same name. -/
structure Env : Type where
  urlParse : String → String → Option String
  cwd : String
  decode : String → Option (ℕ × ℕ)
  base64 : String → String
  imageBasePath : Option String

/-- Shallow embedding of `resolvePath_(base, path)` (lines 184–190): the
`URL` constructor is attempted first; if it throws (`none`), the catch
branch returns `resolve(join(base, path))`. -/
def resolvePath_ (env : Env) (base path : String) : String :=
  match env.urlParse path base with
  | some u => u
  | none => pathResolveCwd env.cwd (pathJoin base path)

/-- Shallow embedding of `getDataURI_(img, params)` (lines 151–175) for an
image whose `src` is `src`: the source is resolved against
`params.imageBasePath || ''`, decoded, sized by `getBitmapDimensions_`,
resized and PNG/base64-encoded.  The result carries the data URI and the
resized dimensions; a decode failure is the rejection that
`addBlurryPlaceholder_` catches. -/
def getDataURI_ (env : Env) (src : String) : Option (String × JsDim × JsDim) :=
  let imageSrc := resolvePath_ env (env.imageBasePath.getD "") src
  (env.decode imageSrc).map (fun wh =>
    let d := getBitmapDimensions_ wh.1 wh.2
    (env.base64 imageSrc, d.1, d.2))

/-- Shallow embedding of `addBlurryPlaceholder_(tree, src, params)`
(lines 106–140): on success the created `img` element carries the class
marker, an empty `placeholder` attribute and the escaped inline SVG as its
`src`; on failure the error is caught and logged at line 137–139 and the
promise resolves with no image (`none`). -/
def addBlurryPlaceholder_ (env : Env) (src : String) : Option DomNode :=
  (getDataURI_ env src).map (fun r =>
    DomNode.elem "img"
      [("class", "i-amphtml-blurry-placeholder"),
       ("placeholder", ""),
       ("src", placeholderSrcAttr (jsDimStr r.2.1) (jsDimStr r.2.2) r.1)]
      [])

/-- Shallow embedding of `hasPlaceholder_(node)` (lines 226–230): some
child's attribute map defines `placeholder`, whatever its value (the
`child.attribs &&` guard of the source only shields text nodes, which carry
no attributes in this model either). -/
def hasPlaceholder_ (n : DomNode) : Bool :=
  n.childNodes.any (fun child => (child.getAttr "placeholder").isSome)

/-- Shallow embedding of `shouldAddBlurryPlaceholder_(node, src, tagName)`
(lines 251–278): the five early-return checks of the source, in source
order. -/
def shouldAddBlurryPlaceholder_ (n : DomNode) (src : Option String)
    (tagName : String) : Bool :=
  if jsTruthy src = false then false
  else if hasPlaceholder_ n = true then false
  else if jsEndsWith (src.getD "") ".jpg" = false ∧
          jsEndsWith (src.getD "") "jpeg" = false then false
  else if tagName = "amp-img" ∧ (n.getAttr "noloading").isSome then false
  else decide (tagName = "amp-video" ∨
    (tagName = "amp-img" ∧ n.getAttr "layout" = some "responsive"))

/-- Candidate image reference computed by the loop body (lines 66–77):
`node.attribs.src` for an `amp-img`; `node.attribs.poster` for an
`amp-video` whose poster is truthy; otherwise the variable stays
`undefined`. -/
def srcOf (n : DomNode) : Option String :=
  if n.tagName = "amp-img" then n.getAttr "src"
  else if n.tagName = "amp-video" ∧ jsTruthy (n.getAttr "poster") = true then
    n.getAttr "poster"
  else none

/-- Qualification of a visited node, as the loop evaluates it at line 79. -/
def qualifies (n : DomNode) : Bool :=
  shouldAddBlurryPlaceholder_ n (srcOf n) n.tagName

/-- Whether the per-element asynchronous unit for node `n` succeeds, i.e.
`jimp.read` decodes the resolved source. -/
def unitOk (env : Env) (n : DomNode) : Bool :=
  (addBlurryPlaceholder_ env ((srcOf n).getD "")).isSome

/-- Outcome of the traversal loop over a forest: the rewritten forest (each
successful unit's placeholder appended under its element), the nodes the
cursor visited, the accepted candidates in visit order, and the running
`placeholders` counter. -/
structure FWalk : Type where
  forest : List DomNode
  visited : List DomNode
  accepted : List DomNode
  count : ℕ

/-- Outcome of the loop body on a single node together with its subtree. -/
structure NWalk : Type where
  tree : DomNode
  visited : List DomNode
  accepted : List DomNode
  count : ℕ

mutual

/-- Shallow embedding of the `transform` loop (lines 64–92) over the forest
still ahead of the cursor, threading the `placeholders` counter.

Modelled from the spec: the document-order cursor `node.nextNode()` and
`skipNodeAndChildren(node)` live in the repository's `HtmlDomHelper`, not in
the analysed sources; per §4.5/§9 the cursor enumerates the body subtree in
pre-order and the skip jumps over the template's entire subtree, which is
the structural recursion below.  A list entered with the counter at the cap
is returned untouched: the loop broke at line 87, so those nodes are never
visited. -/
def runForest (env : Env) : List DomNode → ℕ → FWalk
  | [], c => ⟨[], [], [], c⟩
  | n :: rest, c =>
    if MAX_BLURRED_PLACEHOLDERS ≤ c then ⟨n :: rest, [], [], c⟩
    else
      let rn := runNode env n c
      let rr := runForest env rest rn.count
      ⟨rn.tree :: rr.forest, rn.visited ++ rr.visited,
       rn.accepted ++ rr.accepted, rr.count⟩

/-- Loop body for one visited node: a template is skipped together with its
subtree (lines 68–71); otherwise the node is qualified (line 79), the
counter bumped on acceptance, the subtree traversed, and — once its unit
resolves — the placeholder appended as last child.  Modelled from the spec:
`node.appendChild(img)` (tree library) appends as last child on success and,
per §4.6/§7, a failed unit (whose caught rejection produced no image) adds
no placeholder for its element. -/
def runNode (env : Env) : DomNode → ℕ → NWalk
  | DomNode.elem t attrs cs, c =>
    if t = "template" then
      ⟨DomNode.elem t attrs cs, [DomNode.elem t attrs cs], [], c⟩
    else
      let n := DomNode.elem t attrs cs
      let acc := qualifies n
      let c1 := if acc then c + 1 else c
      let rc := runForest env cs c1
      let ph := if acc then (addBlurryPlaceholder_ env ((srcOf n).getD "")).toList
                else []
      ⟨DomNode.elem t attrs (rc.forest ++ ph), n :: rc.visited,
       (if acc then [n] else []) ++ rc.accepted, rc.count⟩

end

mutual

/-- Pre-order enumeration of a forest with template subtrees pruned: the
full sequence of nodes an unbounded run of the cursor would visit. -/
def prunedForest : List DomNode → List DomNode
  | [] => []
  | n :: rest => prunedNode n ++ prunedForest rest

/-- Pre-order enumeration of one subtree, pruning template contents. -/
def prunedNode : DomNode → List DomNode
  | DomNode.elem t a cs =>
    if t = "template" then [DomNode.elem t a cs]
    else DomNode.elem t a cs :: prunedForest cs

end

/-- Reachability from a root by child steps that never descend into a
template-like container: the nodes the traversal may legitimately reach. -/
inductive PReach : DomNode → DomNode → Prop where
  | refl (n : DomNode) : PReach n n
  | child (n c x : DomNode) : n.tagName ≠ "template" → c ∈ n.childNodes →
      PReach c x → PReach n x

/-- Relation between an input tree and its rewrite by the transform: tag and
attributes are untouched, children are rewritten pointwise, and at most one
placeholder-flagged `img` is appended at the end. -/
inductive Expands : DomNode → DomNode → Prop where
  | mk (t : String) (a : List (String × String))
      (cs cs' extra : List DomNode) :
      List.Forall₂ Expands cs cs' →
      (extra = [] ∨ ∃ ph, extra = [ph] ∧ ph.tagName = "img" ∧
        (ph.getAttr "placeholder").isSome) →
      Expands (DomNode.elem t a cs) (DomNode.elem t a (cs' ++ extra))

/-- Whether a node carries the transform's class marker
`i-amphtml-blurry-placeholder`. -/
def isBlurryMarked (n : DomNode) : Bool :=
  n.getAttr "class" = some "i-amphtml-blurry-placeholder"

mutual

/-- Number of marker-classed nodes in a forest, counted recursively. -/
def countPH : List DomNode → ℕ
  | [] => 0
  | n :: rest => countPHNode n + countPH rest

/-- Number of marker-classed nodes in one subtree. -/
def countPHNode : DomNode → ℕ
  | DomNode.elem t a cs =>
    (if isBlurryMarked (DomNode.elem t a cs) then 1 else 0) + countPH cs

end

/-- Modelled from the spec: `node.firstChildByTag(tag)` of the repository's
tree library — the first direct child with the given tag (§6: lookup of the
top-level document and body elements). -/
def firstChildByTag (n : DomNode) (tag : String) : Option DomNode :=
  n.childNodes.find? (fun c => c.tagName = tag)

/-- Replacement of the first child with the given tag — how the in-place
mutation of the body subtree reads back functionally. -/
def replaceFirstByTag : List DomNode → String → DomNode → List DomNode
  | [], _, _ => []
  | n :: rest, tag, nn =>
    if n.tagName = tag then nn :: rest else n :: replaceFirstByTag rest tag nn

/-- Shallow embedding of `transform(tree, params)` (lines 59–93): locate
`html` then `body` (a malformed tree yields `none`, the fatal error of §7),
run the traversal loop from the body with the counter at zero, and read the
mutated document back.  The returned value stands for the tree once the
`Promise.all` of all launched units has resolved. -/
def transform (env : Env) (root : DomNode) : Option DomNode :=
  match firstChildByTag root "html" with
  | none => none
  | some html =>
    match firstChildByTag html "body" with
    | none => none
    | some body =>
      let r := runForest env [body] 0
      let body' := r.forest.headD body
      let html' := DomNode.elem html.tagName html.attribs
        (replaceFirstByTag html.childNodes "body" body')
      some (DomNode.elem root.tagName root.attribs
        (replaceFirstByTag root.childNodes "html" html'))

/-! Concrete instances used by counterexamples and witnesses. -/

/-- Environment whose URL parse always throws, whose decode always succeeds
(with a degenerate bitmap height, which the sizing function happily
accepts), and whose encode is a fixed data URI. -/
def envOk : Env where
  urlParse := fun _ _ => none
  cwd := "/w"
  decode := fun _ => some (5, 0)
  base64 := fun _ => "d"
  imageBasePath := none

/-- A responsive `amp-img` with the given source. -/
def sampleImg (s : String) : DomNode :=
  DomNode.elem "amp-img" [("src", s), ("layout", "responsive")] []

/-- A document whose body holds six qualifying images — one more than the
cap. -/
def root6 : DomNode :=
  DomNode.elem "#document" []
    [DomNode.elem "html" []
      [DomNode.elem "body" []
        [sampleImg "1.jpg", sampleImg "2.jpg", sampleImg "3.jpg",
         sampleImg "4.jpg", sampleImg "5.jpg", sampleImg "6.jpg"]]]

/-- A document whose body holds one qualifying image. -/
def root1 : DomNode :=
  DomNode.elem "#document" []
    [DomNode.elem "html" []
      [DomNode.elem "body" [] [sampleImg "1.jpg"]]]

/-- A template container wrapping a qualifying image. -/
def tmplNode : DomNode :=
  DomNode.elem "template" [] [sampleImg "t.jpg"]

/-- A body holding a template-wrapped image followed by a plain qualifying
image. -/
def bodyT : DomNode :=
  DomNode.elem "body" [] [tmplNode, sampleImg "a.jpg"]

/-! Characterisation of `roundSqrt`: it is the half-up rounding of the real
square root, pinned down by two rational inequalities. -/

theorem roundSqrt_def (q : ℚ) :
    roundSqrt q = (Nat.sqrt (⌊4 * q⌋).toNat + 1) / 2 := rfl

theorem roundSqrt_up (q : ℚ) (hq : 0 ≤ q) :
    4 * q < (2 * (roundSqrt q : ℚ) + 1) ^ 2 := by
  have h4 : (0 : ℚ) ≤ 4 * q := by linarith
  have hfl : (0 : ℤ) ≤ ⌊4 * q⌋ := Int.floor_nonneg.mpr h4
  have htn : ((⌊4 * q⌋).toNat : ℤ) = ⌊4 * q⌋ := Int.toNat_of_nonneg hfl
  have hdef := roundSqrt_def q
  have hlt : (⌊4 * q⌋).toNat <
      (Nat.sqrt (⌊4 * q⌋).toNat + 1) * (Nat.sqrt (⌊4 * q⌋).toNat + 1) :=
    Nat.lt_succ_sqrt _
  have hmn : Nat.sqrt (⌊4 * q⌋).toNat + 1 ≤ 2 * roundSqrt q + 1 := by omega
  have hsq2 : (Nat.sqrt (⌊4 * q⌋).toNat + 1) * (Nat.sqrt (⌊4 * q⌋).toNat + 1) ≤
      (2 * roundSqrt q + 1) * (2 * roundSqrt q + 1) :=
    Nat.mul_le_mul hmn hmn
  have hnat : (⌊4 * q⌋).toNat + 1 ≤
      (2 * roundSqrt q + 1) * (2 * roundSqrt q + 1) := by omega
  have hcast : (4 : ℚ) * q < ((⌊4 * q⌋).toNat : ℚ) + 1 := by
    have h := Int.lt_floor_add_one (4 * q)
    rw [← htn] at h
    exact_mod_cast h
  have hfin : (((⌊4 * q⌋).toNat : ℚ)) + 1 ≤ (2 * (roundSqrt q : ℚ) + 1) ^ 2 := by
    have h2 : ((((⌊4 * q⌋).toNat + 1 : ℕ)) : ℚ) ≤
        (((2 * roundSqrt q + 1) * (2 * roundSqrt q + 1) : ℕ) : ℚ) := by
      exact_mod_cast hnat
    push_cast at h2
    nlinarith [h2]
  linarith

theorem roundSqrt_low (q : ℚ) (hn : 1 ≤ roundSqrt q) :
    (2 * (roundSqrt q : ℚ) - 1) ^ 2 ≤ 4 * q := by
  have hdef := roundSqrt_def q
  have hsq : Nat.sqrt (⌊4 * q⌋).toNat * Nat.sqrt (⌊4 * q⌋).toNat ≤
      (⌊4 * q⌋).toNat := Nat.sqrt_le _
  have hm1 : 1 ≤ Nat.sqrt (⌊4 * q⌋).toNat := by omega
  have hmn : 2 * roundSqrt q - 1 ≤ Nat.sqrt (⌊4 * q⌋).toNat := by omega
  have h1 : (2 * roundSqrt q - 1) * (2 * roundSqrt q - 1) ≤ (⌊4 * q⌋).toNat := by
    calc (2 * roundSqrt q - 1) * (2 * roundSqrt q - 1)
        ≤ Nat.sqrt (⌊4 * q⌋).toNat * Nat.sqrt (⌊4 * q⌋).toNat :=
          Nat.mul_le_mul hmn hmn
      _ ≤ (⌊4 * q⌋).toNat := hsq
  have hfl : (0 : ℤ) ≤ ⌊4 * q⌋ := Int.le_of_lt (by
    have : 1 ≤ (⌊4 * q⌋).toNat := by nlinarith [hsq, hm1]
    omega)
  have htn : ((⌊4 * q⌋).toNat : ℤ) = ⌊4 * q⌋ := Int.toNat_of_nonneg hfl
  have hle : ((⌊4 * q⌋).toNat : ℚ) ≤ 4 * q := by
    have h := Int.floor_le (4 * q)
    rw [← htn] at h
    exact_mod_cast h
  have hcast : (((2 * roundSqrt q - 1) * (2 * roundSqrt q - 1) : ℕ) : ℚ) =
      (2 * (roundSqrt q : ℚ) - 1) ^ 2 := by
    have h2 : 1 ≤ 2 * roundSqrt q := by omega
    push_cast [Nat.cast_sub h2]
    ring
  calc (2 * (roundSqrt q : ℚ) - 1) ^ 2
      = (((2 * roundSqrt q - 1) * (2 * roundSqrt q - 1) : ℕ) : ℚ) := hcast.symm
    _ ≤ ((⌊4 * q⌋).toNat : ℚ) := by exact_mod_cast h1
    _ ≤ 4 * q := hle

theorem roundSqrt_pos (q : ℚ) (h1 : 1 ≤ 4 * q) : 1 ≤ roundSqrt q := by
  by_contra hc
  have h0 : roundSqrt q = 0 := by omega
  have := roundSqrt_up q (by linarith)
  rw [h0] at this
  norm_num at this
  linarith

theorem roundSqrt_eq_zero (q : ℚ) (_hq : 0 ≤ q) (hup : 4 * q < 1) :
    roundSqrt q = 0 := by
  by_contra hc
  have hn : 1 ≤ roundSqrt q := by omega
  have hlow := roundSqrt_low q hn
  have : (1 : ℚ) ≤ (2 * (roundSqrt q : ℚ) - 1) ^ 2 := by
    have : (1 : ℚ) ≤ (roundSqrt q : ℚ) := by exact_mod_cast hn
    nlinarith
  linarith

theorem roundSqrt_eq_of (q : ℚ) (n : ℕ) (h1 : 1 ≤ n)
    (hlow : (2 * (n : ℚ) - 1) ^ 2 ≤ 4 * q)
    (hup : 4 * q < (2 * (n : ℚ) + 1) ^ 2) : roundSqrt q = n := by
  have hq : 0 ≤ q := by nlinarith [sq_nonneg (2 * (n : ℚ) - 1)]
  rcases lt_trichotomy (roundSqrt q) n with hlt | heq | hgt
  · exfalso
    have hup' := roundSqrt_up q hq
    have hle : (2 * (roundSqrt q : ℚ) + 1) ≤ (2 * (n : ℚ) - 1) := by
      have : roundSqrt q + 1 ≤ n := hlt
      have hcast : ((roundSqrt q : ℚ)) + 1 ≤ (n : ℚ) := by exact_mod_cast this
      linarith
    have hnn : (0 : ℚ) ≤ 2 * (roundSqrt q : ℚ) + 1 := by positivity
    have := pow_le_pow_left₀ hnn hle 2
    linarith
  · exact heq
  · exfalso
    have hn1 : 1 ≤ roundSqrt q := by omega
    have hlow' := roundSqrt_low q hn1
    have hle : (2 * (n : ℚ) + 1) ≤ (2 * (roundSqrt q : ℚ) - 1) := by
      have : n + 1 ≤ roundSqrt q := hgt
      have hcast : ((n : ℚ)) + 1 ≤ (roundSqrt q : ℚ) := by exact_mod_cast this
      linarith
    have hnn : (0 : ℚ) ≤ 2 * (n : ℚ) + 1 := by positivity
    have := pow_le_pow_left₀ hnn hle 2
    linarith

/-! Concrete values of the sizing function used by the C2/C3 theorems. -/

theorem getBitmapDimensions_40_37 :
    getBitmapDimensions_ 40 37 = (JsDim.fin 8, JsDim.fin 7) := by
  have hw : roundSqrt (PIXEL_TARGET * 40 / 37) = 8 := by
    apply roundSqrt_eq_of _ 8 (by norm_num) <;>
      · rw [PIXEL_TARGET]
        norm_num
  have hh : roundSqrt (PIXEL_TARGET * 37 / 40) = 7 := by
    apply roundSqrt_eq_of _ 7 (by norm_num) <;>
      · rw [PIXEL_TARGET]
        norm_num
  rw [getBitmapDimensions_]
  norm_num [hw, hh]

theorem getBitmapDimensions_1000_1 :
    getBitmapDimensions_ 1000 1 = (JsDim.fin 245, JsDim.fin 0) := by
  have hw : roundSqrt (PIXEL_TARGET * 1000) = 245 := by
    apply roundSqrt_eq_of _ 245 (by norm_num) <;>
      · rw [PIXEL_TARGET]
        norm_num
  have hh : roundSqrt (PIXEL_TARGET / 1000) = 0 := by
    apply roundSqrt_eq_zero <;>
      · rw [PIXEL_TARGET]
        norm_num
  rw [getBitmapDimensions_]
  norm_num [hw, hh]

theorem specSizeWidth_40_37 : specSizeWidth 40 37 = 9 := by
  have hh : roundSqrt (PIXEL_TARGET * 37 / 40) = 7 := by
    apply roundSqrt_eq_of _ 7 (by norm_num) <;>
      · rw [PIXEL_TARGET]
        norm_num
  rw [specSizeWidth]
  push_cast
  rw [hh, jsRound, PIXEL_TARGET]
  rw [show (60 : ℚ) / ((7 : ℕ) : ℚ) + 1 / 2 = 127 / 14 by norm_num]
  rw [Int.floor_eq_iff]
  norm_num

/-- C2, counterexample: at source dimensions 40×37 the code returns width 8,
while the spec's formula `w = round(P / h)` computed from the *rounded*
height `h = round(sqrt(P / r)) = 7` yields `round(60 / 7) = 9`; and at
1000×1 the returned height is 0, not a positive integer.  So the claim is
false as stated: the code divides by the unrounded height, and the result
components need not be positive. -/
theorem C2_sizing_counterexample :
    getBitmapDimensions_ 40 37 = (JsDim.fin 8, JsDim.fin 7) ∧
    specSizeWidth 40 37 = 9 ∧ (8 : ℤ) ≠ 9 ∧
    getBitmapDimensions_ 1000 1 = (JsDim.fin 245, JsDim.fin 0) ∧ ¬ 0 < (0 : ℤ) :=
  ⟨getBitmapDimensions_40_37, specSizeWidth_40_37, by norm_num,
   getBitmapDimensions_1000_1, by norm_num⟩

/-- C2 (amended): for positive source dimensions the sizing function returns
finite integers `w, h` that are the half-up roundings of the *exact*
solutions `sqrt(P*r)` and `sqrt(P/r)` — i.e. the width is `round(P / h)`
for the unrounded height, not for the rounded one — characterised by
`(2x-1)^2 ≤ 4q < (2x+1)^2`; they are positive whenever the aspect ratio is
within `[1/240, 240]`; and `w*h ≈ P = 60` up to rounding tolerance in the
sense `(2w-1)(2h-1) ≤ 240 < (2w+1)(2h+1)`. -/
theorem C2_sizing_characterised (w0 h0 : ℕ) (hw : 0 < w0) (hh : 0 < h0) :
    ∃ w h : ℕ,
      getBitmapDimensions_ w0 h0 = (JsDim.fin w, JsDim.fin h) ∧
      4 * (PIXEL_TARGET * h0 / w0) < (2 * (h : ℚ) + 1) ^ 2 ∧
      (1 ≤ h → (2 * (h : ℚ) - 1) ^ 2 ≤ 4 * (PIXEL_TARGET * h0 / w0)) ∧
      4 * (PIXEL_TARGET * w0 / h0) < (2 * (w : ℚ) + 1) ^ 2 ∧
      (1 ≤ w → (2 * (w : ℚ) - 1) ^ 2 ≤ 4 * (PIXEL_TARGET * w0 / h0)) ∧
      (w0 ≤ 240 * h0 → 1 ≤ h) ∧
      (h0 ≤ 240 * w0 → 1 ≤ w) ∧
      240 < (2 * (w : ℚ) + 1) * (2 * (h : ℚ) + 1) ∧
      (1 ≤ h → 1 ≤ w → (2 * (w : ℚ) - 1) * (2 * (h : ℚ) - 1) ≤ 240) := by
  have hP : PIXEL_TARGET = 60 := rfl
  have hw0 : w0 ≠ 0 := hw.ne'
  have hh0 : h0 ≠ 0 := hh.ne'
  have hwQ : (0 : ℚ) < (w0 : ℚ) := by exact_mod_cast hw
  have hhQ : (0 : ℚ) < (h0 : ℚ) := by exact_mod_cast hh
  have hA : (0 : ℚ) < PIXEL_TARGET * w0 / h0 := by rw [hP]; positivity
  have hB : (0 : ℚ) < PIXEL_TARGET * h0 / w0 := by rw [hP]; positivity
  have hAB : (PIXEL_TARGET * w0 / h0) * (PIXEL_TARGET * h0 / w0) = 3600 := by
    rw [hP]
    field_simp
    ring
  refine ⟨roundSqrt (PIXEL_TARGET * w0 / h0), roundSqrt (PIXEL_TARGET * h0 / w0),
    ?_, roundSqrt_up _ hB.le, fun h1 => roundSqrt_low _ h1,
    roundSqrt_up _ hA.le, fun h1 => roundSqrt_low _ h1, ?_, ?_, ?_, ?_⟩
  · simp [getBitmapDimensions_, hw0, hh0]
  · intro hle
    apply roundSqrt_pos
    have hle' : (w0 : ℚ) ≤ 240 * h0 := by exact_mod_cast hle
    have h240 : (1 : ℚ) ≤ 240 * (h0 : ℚ) / w0 := by
      rw [le_div_iff₀ hwQ]
      linarith
    have heq : 4 * (PIXEL_TARGET * h0 / w0) = 240 * (h0 : ℚ) / w0 := by
      rw [hP]; ring
    linarith [heq ▸ h240]
  · intro hle
    apply roundSqrt_pos
    have hle' : (h0 : ℚ) ≤ 240 * w0 := by exact_mod_cast hle
    have h240 : (1 : ℚ) ≤ 240 * (w0 : ℚ) / h0 := by
      rw [le_div_iff₀ hhQ]
      linarith
    have heq : 4 * (PIXEL_TARGET * w0 / h0) = 240 * (w0 : ℚ) / h0 := by
      rw [hP]; ring
    linarith [heq ▸ h240]
  · have h1 := roundSqrt_up _ hA.le
    have h2 := roundSqrt_up _ hB.le
    have hx : (0 : ℚ) ≤ 2 * (roundSqrt (PIXEL_TARGET * w0 / h0) : ℚ) + 1 := by
      positivity
    have hy : (0 : ℚ) ≤ 2 * (roundSqrt (PIXEL_TARGET * h0 / w0) : ℚ) + 1 := by
      positivity
    have hsq : (240 : ℚ) ^ 2 <
        ((2 * (roundSqrt (PIXEL_TARGET * w0 / h0) : ℚ) + 1) *
         (2 * (roundSqrt (PIXEL_TARGET * h0 / w0) : ℚ) + 1)) ^ 2 := by
      have hprod : (4 * (PIXEL_TARGET * w0 / h0)) * (4 * (PIXEL_TARGET * h0 / w0)) <
          (2 * (roundSqrt (PIXEL_TARGET * w0 / h0) : ℚ) + 1) ^ 2 *
          (2 * (roundSqrt (PIXEL_TARGET * h0 / w0) : ℚ) + 1) ^ 2 :=
        mul_lt_mul'' h1 h2 (by positivity) (by positivity)
      have hval : (4 * (PIXEL_TARGET * w0 / h0)) * (4 * (PIXEL_TARGET * h0 / w0)) =
          (240 : ℚ) ^ 2 := by
        rw [show (4 * (PIXEL_TARGET * (w0 : ℚ) / h0)) * (4 * (PIXEL_TARGET * h0 / w0)) =
          16 * ((PIXEL_TARGET * w0 / h0) * (PIXEL_TARGET * h0 / w0)) by ring, hAB]
        norm_num
      calc (240 : ℚ) ^ 2 = _ := hval.symm
        _ < _ := hprod
        _ = _ := by ring
    exact lt_of_pow_lt_pow_left₀ 2 (by positivity) hsq
  · intro hhp hwp
    have h1 := roundSqrt_low _ hwp
    have h2 := roundSqrt_low _ hhp
    have hsq : ((2 * (roundSqrt (PIXEL_TARGET * w0 / h0) : ℚ) - 1) *
        (2 * (roundSqrt (PIXEL_TARGET * h0 / w0) : ℚ) - 1)) ^ 2 ≤ (240 : ℚ) ^ 2 := by
      have hprod : (2 * (roundSqrt (PIXEL_TARGET * w0 / h0) : ℚ) - 1) ^ 2 *
          (2 * (roundSqrt (PIXEL_TARGET * h0 / w0) : ℚ) - 1) ^ 2 ≤
          (4 * (PIXEL_TARGET * w0 / h0)) * (4 * (PIXEL_TARGET * h0 / w0)) :=
        mul_le_mul h1 h2 (sq_nonneg _) (by positivity)
      have hval : (4 * (PIXEL_TARGET * w0 / h0)) * (4 * (PIXEL_TARGET * h0 / w0)) =
          (240 : ℚ) ^ 2 := by
        rw [show (4 * (PIXEL_TARGET * (w0 : ℚ) / h0)) * (4 * (PIXEL_TARGET * h0 / w0)) =
          16 * ((PIXEL_TARGET * w0 / h0) * (PIXEL_TARGET * h0 / w0)) by ring, hAB]
        norm_num
      calc ((2 * (roundSqrt (PIXEL_TARGET * w0 / h0) : ℚ) - 1) *
          (2 * (roundSqrt (PIXEL_TARGET * h0 / w0) : ℚ) - 1)) ^ 2
          = (2 * (roundSqrt (PIXEL_TARGET * w0 / h0) : ℚ) - 1) ^ 2 *
            (2 * (roundSqrt (PIXEL_TARGET * h0 / w0) : ℚ) - 1) ^ 2 := by ring
        _ ≤ _ := hprod
        _ = _ := hval
    exact le_of_pow_le_pow_left₀ two_ne_zero (by norm_num) hsq

/-- C2, witness: the amended characterisation applied at the concrete
source dimensions 40×37. -/
theorem C2_sizing_characterised_witness :
    ∃ w h : ℕ,
      getBitmapDimensions_ 40 37 = (JsDim.fin w, JsDim.fin h) ∧
      4 * (PIXEL_TARGET * 37 / 40) < (2 * (h : ℚ) + 1) ^ 2 ∧
      (1 ≤ h → (2 * (h : ℚ) - 1) ^ 2 ≤ 4 * (PIXEL_TARGET * 37 / 40)) ∧
      4 * (PIXEL_TARGET * 40 / 37) < (2 * (w : ℚ) + 1) ^ 2 ∧
      (1 ≤ w → (2 * (w : ℚ) - 1) ^ 2 ≤ 4 * (PIXEL_TARGET * 40 / 37)) ∧
      (40 ≤ 240 * 37 → 1 ≤ h) ∧
      (37 ≤ 240 * 40 → 1 ≤ w) ∧
      240 < (2 * (w : ℚ) + 1) * (2 * (h : ℚ) + 1) ∧
      (1 ≤ h → 1 ≤ w → (2 * (w : ℚ) - 1) * (2 * (h : ℚ) - 1) ≤ 240) := by
  have h := C2_sizing_characterised 40 37 (by norm_num) (by norm_num)
  push_cast at h ⊢
  exact h

/-- C3, counterexample: `getBitmapDimensions_(5, 0)` does not fail with a
sizing error — the JS divisions produce `Infinity` and the function returns
`{width: Infinity, height: 0}`, i.e. it does return a result and that result
has a non-finite width and a zero height. -/
theorem C3_degenerate_counterexample :
    getBitmapDimensions_ 5 0 = (JsDim.posInf, JsDim.fin 0) := by
  simp [getBitmapDimensions_]

/-- C3 (amended): for `sourceHeight = 0` the sizing function does not raise
a sizing error; JS division by zero makes it return width `Infinity` and
height `0` for any positive `x`, and `NaN` dimensions for `x = 0`.  (The
guard demanded by the spec is a requirement on reimplementations; the
source leaves the case undefined.) -/
theorem C3_degenerate_height (x : ℕ) :
    getBitmapDimensions_ x 0 =
      if x = 0 then (JsDim.nan, JsDim.nan) else (JsDim.posInf, JsDim.fin 0) := by
  by_cases hx : x = 0 <;> simp [getBitmapDimensions_, hx]

/-! Qualification policy: characterisation of
`shouldAddBlurryPlaceholder_`. -/

theorem jsEndsWith_iff (s suf : String) :
    jsEndsWith s suf = true ↔ suf.data <:+ s.data := by
  rw [jsEndsWith, List.isSuffixOf, List.isPrefixOf_iff_prefix, List.reverse_prefix]

theorem endsWith_png_excl (s : String) (h : jsEndsWith s ".png" = true) :
    jsEndsWith s ".jpg" = false ∧ jsEndsWith s "jpeg" = false := by
  rw [jsEndsWith_iff] at h
  constructor
  · by_contra hc
    rw [Bool.not_eq_false, jsEndsWith_iff] at hc
    rcases List.suffix_or_suffix_of_suffix h hc with h3 | h3
    · exact absurd (h3.eq_of_length (by decide)) (by decide)
    · exact absurd (h3.eq_of_length (by decide)) (by decide)
  · by_contra hc
    rw [Bool.not_eq_false, jsEndsWith_iff] at hc
    rcases List.suffix_or_suffix_of_suffix h hc with h3 | h3
    · exact absurd (h3.eq_of_length (by decide)) (by decide)
    · exact absurd (h3.eq_of_length (by decide)) (by decide)

theorem qualifies_iff (n : DomNode) :
    qualifies n = true ↔
      (jsTruthy (srcOf n) = true ∧
       hasPlaceholder_ n = false ∧
       (jsEndsWith ((srcOf n).getD "") ".jpg" = true ∨
        jsEndsWith ((srcOf n).getD "") "jpeg" = true) ∧
       ¬(n.tagName = "amp-img" ∧ (n.getAttr "noloading").isSome) ∧
       (n.tagName = "amp-video" ∨
        (n.tagName = "amp-img" ∧ n.getAttr "layout" = some "responsive"))) := by
    rw [qualifies, shouldAddBlurryPlaceholder_]
    split_ifs with h1 h2 h3 h4
    · simp only [Bool.false_eq_true, false_iff]
      intro hcon
      rw [h1] at hcon
      exact absurd hcon.1 (by simp)
    · simp only [Bool.false_eq_true, false_iff]
      intro hcon
      rw [h2] at hcon
      exact absurd hcon.2.1 (by simp)
    · simp only [Bool.false_eq_true, false_iff]
      intro hcon
      rcases hcon.2.2.1 with hj | hj
      · rw [h3.1] at hj
        exact absurd hj (by simp)
      · rw [h3.2] at hj
        exact absurd hj (by simp)
    · simp only [Bool.false_eq_true, false_iff]
      intro hcon
      exact hcon.2.2.2.1 h4
    · rw [decide_eq_true_iff]
      constructor
      · intro hlast
        refine ⟨by simpa using h1, by simpa using h2, ?_, h4, hlast⟩
        rcases not_and_or.mp h3 with hj | hj <;>
          simp only [Bool.not_eq_false] at hj
        · exact Or.inl hj
        · exact Or.inr hj
      · intro hcon
        exact hcon.2.2.2.2

/-- C6: a visited element qualifies exactly when, in short-circuit order, it
has a truthy image reference (`src` of an `amp-img`, `poster` of an
`amp-video`), no placeholder-flagged child, a reference ending in `.jpg` or
`jpeg` (case-sensitive suffix match), is not an `amp-img` carrying
`noloading`, and is an `amp-video` or an `amp-img` with
`layout="responsive"`; moreover a reference ending in `.png` never
qualifies. -/
theorem C6_qualification (n : DomNode) :
    (qualifies n = true ↔
      (jsTruthy (srcOf n) = true ∧
       hasPlaceholder_ n = false ∧
       (jsEndsWith ((srcOf n).getD "") ".jpg" = true ∨
        jsEndsWith ((srcOf n).getD "") "jpeg" = true) ∧
       ¬(n.tagName = "amp-img" ∧ (n.getAttr "noloading").isSome) ∧
       (n.tagName = "amp-video" ∨
        (n.tagName = "amp-img" ∧ n.getAttr "layout" = some "responsive")))) ∧
    (jsEndsWith ((srcOf n).getD "") ".png" = true → qualifies n = false) := by
  refine ⟨qualifies_iff n, ?_⟩
  intro hpng
  by_contra hq
  rw [Bool.not_eq_false] at hq
  obtain ⟨-, -, hj, -, -⟩ := (qualifies_iff n).mp hq
  obtain ⟨hj1, hj2⟩ := endsWith_png_excl _ hpng
  rcases hj with h | h
  · rw [hj1] at h
    exact absurd h (by simp)
  · rw [hj2] at h
    exact absurd h (by simp)

/-- C6, witness: an `amp-img` with `layout="responsive"` and a `.png`
source satisfies the hypothesis of the second part and is rejected. -/
theorem C6_qualification_witness :
    jsEndsWith ((srcOf (DomNode.elem "amp-img"
        [("src", "a.png"), ("layout", "responsive")] [])).getD "") ".png" = true ∧
    qualifies (DomNode.elem "amp-img"
        [("src", "a.png"), ("layout", "responsive")] []) = false :=
  ⟨by decide,
   (C6_qualification (DomNode.elem "amp-img"
     [("src", "a.png"), ("layout", "responsive")] [])).2 (by decide)⟩

/-- C10: any child with a defined `placeholder` attribute — whatever its
value, and with or without the transform's class marker — makes
`hasPlaceholder_` true and disqualifies the parent, so an author-supplied
placeholder blocks the transform. -/
theorem C10_author_placeholder_blocks (n child : DomNode) (v : String)
    (hmem : child ∈ n.childNodes)
    (hattr : child.getAttr "placeholder" = some v) :
    hasPlaceholder_ n = true ∧ qualifies n = false := by
  have hp : hasPlaceholder_ n = true := by
    rw [hasPlaceholder_, List.any_eq_true]
    exact ⟨child, hmem, by rw [hattr]; rfl⟩
  refine ⟨hp, ?_⟩
  rw [qualifies, shouldAddBlurryPlaceholder_]
  split_ifs with h1
  · rfl
  · rfl

/-- C10, witness: a `div` child carrying `placeholder="x"` (no class
marker) blocks an otherwise fully qualifying responsive `amp-img`. -/
theorem C10_author_placeholder_blocks_witness :
    hasPlaceholder_ (DomNode.elem "amp-img"
      [("src", "a.jpg"), ("layout", "responsive")]
      [DomNode.elem "div" [("placeholder", "x")] []]) = true ∧
    qualifies (DomNode.elem "amp-img"
      [("src", "a.jpg"), ("layout", "responsive")]
      [DomNode.elem "div" [("placeholder", "x")] []]) = false :=
  C10_author_placeholder_blocks _ (DomNode.elem "div" [("placeholder", "x")] [])
    "x" (List.mem_singleton.mpr rfl) rfl

/-! Escaping pipeline: the data-URI payload is free of the characters the
claim forbids. -/

/-- Characters the escaped payload must not contain (the `%` of the claim's
list is excluded: the table's replacements themselves contain `%`). -/
def badChar (c : Char) : Bool :=
  c = '#' ∨ c = ':' ∨ c = '<' ∨ c = '>' ∨ c = '"'

theorem escapeList_no_bad (l : List Char) :
    (escapeList l).all (fun c => !badChar c) = true := by
  induction l with
  | nil => rfl
  | cons c rest ih =>
    rw [escapeList, List.all_append]
    refine Bool.and_eq_true_iff.mpr ⟨?_, ih⟩
    by_cases h1 : c = '#'
    · subst h1; decide
    by_cases h2 : c = '%'
    · subst h2; decide
    by_cases h3 : c = ':'
    · subst h3; decide
    by_cases h4 : c = '<'
    · subst h4; decide
    by_cases h5 : c = '>'
    · subst h5; decide
    by_cases h6 : c = '"'
    · subst h6; decide
    simp [escaper, ESCAPE_TABLE, h1, h2, h3, h4, h5, h6, badChar]

theorem collapseWsAux_ws_space (l : List Char) :
    ∀ (b : Bool), ∀ c ∈ collapseWsAux b l, isJsWs c = true → c = ' ' := by
  induction l with
  | nil => intro b c hc; simp [collapseWsAux] at hc
  | cons x rest ih =>
    intro b c hc hws
    rw [collapseWsAux] at hc
    by_cases hx : isJsWs x = true
    · rw [if_pos hx] at hc
      rcases List.mem_append.mp hc with h | h
      · cases b <;> simp_all
      · exact ih true c h hws
    · rw [if_neg hx] at hc
      rcases List.mem_cons.mp hc with h | h
      · subst h; exact absurd hws hx
      · exact ih false c h hws

theorem collapseWsAux_head_no_ws (l : List Char) :
    ∀ c, (collapseWsAux true l).head? = some c → isJsWs c = false := by
  induction l with
  | nil => intro c hc; simp [collapseWsAux] at hc
  | cons x rest ih =>
    intro c hc
    rw [collapseWsAux] at hc
    by_cases hx : isJsWs x = true
    · rw [if_pos hx] at hc
      simpa using ih c (by simpa using hc)
    · rw [if_neg hx] at hc
      simp only [List.head?_cons, Option.some.injEq] at hc
      subst hc
      simpa using hx

theorem collapseWsAux_chain (l : List Char) :
    ∀ (b : Bool), List.Chain'
      (fun a b => ¬(isJsWs a = true ∧ isJsWs b = true)) (collapseWsAux b l) := by
  induction l with
  | nil => intro b; simp [collapseWsAux]
  | cons x rest ih =>
    intro b
    rw [collapseWsAux]
    by_cases hx : isJsWs x = true
    · rw [if_pos hx]
      cases b with
      | true => simpa using ih true
      | false =>
        rw [if_neg (by simp : ¬(false = true))]
        rw [List.singleton_append, List.chain'_cons']
        refine ⟨?_, ih true⟩
        intro y hy
        have := collapseWsAux_head_no_ws rest y hy
        simp [this]
    · rw [if_neg hx]
      rw [List.chain'_cons']
      refine ⟨?_, ih false⟩
      intro y _
      intro hcon
      exact absurd hcon.1 (by simpa using hx)

/-- C7: the placeholder's `src` attribute is the fixed
`data:image/svg+xml;charset=utf-8,` prefix followed by the built markup
taken through whitespace collapse, then `"> <" → "><"` contraction, then
the single-pass table escape; the escape leaves no literal `#`, `:`, `<`,
`>` or `"` anywhere in the payload, replacement text is not itself
re-escaped (e.g. `escape "#%" = "%23%25"`, not `%2525`), runs of whitespace
come out as single spaces, and no two adjacent whitespace characters
survive. -/
theorem C7_svg_escaping :
    (∀ w h uri : String, placeholderSrcAttr w h uri =
      "data:image/svg+xml;charset=utf-8," ++
        escapeStr (replaceGtLtStr (collapseWsStr (buildSvg w h uri)))) ∧
    (∀ s : String, (escapeStr s).data.all (fun c => !badChar c) = true) ∧
    escapeStr "#%" = "%23%25" ∧
    replaceGtLtStr "a> <b" = "a><b" ∧
    (∀ s : String, ∀ c ∈ (collapseWsStr s).data, isJsWs c = true → c = ' ') ∧
    (∀ s : String, List.Chain'
      (fun a b => ¬(isJsWs a = true ∧ isJsWs b = true)) (collapseWsStr s).data) :=
  ⟨fun _ _ _ => rfl,
   fun s => escapeList_no_bad s.data,
   by decide,
   by decide,
   fun s => collapseWsAux_ws_space s.data false,
   fun s => collapseWsAux_chain s.data false⟩

/-- C7, witness: the escape of a concrete fragment contains none of the
forbidden characters, and the collapse of a concrete fragment turns its
newline into a plain space. -/
theorem C7_svg_escaping_witness :
    ((escapeStr "<svg viewBox=\"0 0 8 8\">").data.all
      (fun c => !badChar c) = true) ∧
    ('\n' ∈ (collapseWsStr "a\nb").data → False) ∧
    (' ' ∈ (collapseWsStr "a\nb").data ∧ isJsWs ' ' = true → ' ' = ' ') :=
  ⟨C7_svg_escaping.2.1 "<svg viewBox=\"0 0 8 8\">",
   by decide,
   fun h => C7_svg_escaping.2.2.2.2.1 "a\nb" ' ' h.1 h.2⟩

/-! Path resolution (C9). -/

theorem string_head_slash (s : String) : ("/" ++ s).data.head? = some '/' := by
  rw [String.data_append]
  rfl

/-- C9: `resolvePath_` is total over any two strings — when the URL
constructor succeeds its normalised string is returned, and when it throws
the fallback returns `resolve(join(base, path))`, an absolute filesystem
path (it begins with the path separator). -/
theorem C9_resolve_path_total (env : Env) (base p : String) :
    (∀ u, env.urlParse p base = some u → resolvePath_ env base p = u) ∧
    (env.urlParse p base = none →
      resolvePath_ env base p = pathResolveCwd env.cwd (pathJoin base p) ∧
      (resolvePath_ env base p).data.head? = some '/') := by
  constructor
  · intro u hu
    rw [resolvePath_, hu]
  · intro hn
    rw [resolvePath_, hn]
    exact ⟨rfl, string_head_slash _⟩

/-- C9, witness: with a URL parse that throws on everything, resolving
`a.jpg` against base `b` falls back to the absolute filesystem path. -/
theorem C9_resolve_path_total_witness :
    resolvePath_ envOk "b" "a.jpg" = pathResolveCwd "/w" (pathJoin "b" "a.jpg") ∧
    (resolvePath_ envOk "b" "a.jpg").data.head? = some '/' :=
  (C9_resolve_path_total envOk "b" "a.jpg").2 rfl

/-! Walker infrastructure lemmas. -/

theorem qualifies_tag_ne (n : DomNode) (h1 : n.tagName ≠ "amp-img")
    (h2 : n.tagName ≠ "amp-video") : qualifies n = false := by
  have hsrc : srcOf n = none := by
    rw [srcOf, if_neg h1, if_neg]
    intro hcon
    exact h2 hcon.1
  rw [qualifies, shouldAddBlurryPlaceholder_, hsrc]
  rfl

theorem runForest_capped (env : Env) (ns : List DomNode) (c : ℕ)
    (h : MAX_BLURRED_PLACEHOLDERS ≤ c) : runForest env ns c = ⟨ns, [], [], c⟩ := by
  cases ns with
  | nil => rw [runForest]
  | cons n rest => rw [runForest, if_pos h]

theorem countPH_append (a b : List DomNode) :
    countPH (a ++ b) = countPH a + countPH b := by
  induction a with
  | nil => simp [countPH]
  | cons n rest ih =>
    rw [List.cons_append, countPH, countPH, ih]
    omega

theorem hasPlaceholder_of_child (n child : DomNode) (hmem : child ∈ n.childNodes)
    (h : (child.getAttr "placeholder").isSome) : hasPlaceholder_ n = true := by
  rw [hasPlaceholder_, List.any_eq_true]
  exact ⟨child, hmem, h⟩

theorem placeholder_child_disqualifies (n child : DomNode)
    (hmem : child ∈ n.childNodes) (h : (child.getAttr "placeholder").isSome) :
    qualifies n = false := by
  have hp := hasPlaceholder_of_child n child hmem h
  rw [qualifies, shouldAddBlurryPlaceholder_]
  split_ifs with h1
  · rfl
  · rfl

theorem addBlurry_isSome (env : Env) (s : String) :
    (addBlurryPlaceholder_ env s).isSome =
      (env.decode (resolvePath_ env (env.imageBasePath.getD "") s)).isSome := by
  cases h : env.decode (resolvePath_ env (env.imageBasePath.getD "") s) <;>
    simp [addBlurryPlaceholder_, getDataURI_, h]

theorem addBlurry_countPH (env : Env) (s : String) :
    countPH (addBlurryPlaceholder_ env s).toList =
      if (addBlurryPlaceholder_ env s).isSome then 1 else 0 := by
  rw [addBlurryPlaceholder_]
  cases h : getDataURI_ env s with
  | none => rfl
  | some r => rfl

theorem addBlurry_shape (env : Env) (s : String) (img : DomNode)
    (h : addBlurryPlaceholder_ env s = some img) :
    img.tagName = "img" ∧ (img.getAttr "placeholder").isSome ∧
      img.childNodes = [] := by
  rw [addBlurryPlaceholder_] at h
  cases hd : getDataURI_ env s with
  | none =>
    rw [hd] at h
    exact Option.noConfusion h
  | some r =>
    rw [hd] at h
    injection h with h
    subst h
    exact ⟨rfl, rfl, rfl⟩

theorem runForest_nil (env : Env) (c : ℕ) : runForest env [] c = ⟨[], [], [], c⟩ := by
  rw [runForest]

theorem runForest_cons (env : Env) (n : DomNode) (rest : List DomNode) (c : ℕ)
    (hc : ¬ MAX_BLURRED_PLACEHOLDERS ≤ c) :
    runForest env (n :: rest) c =
      ⟨(runNode env n c).tree :: (runForest env rest (runNode env n c).count).forest,
       (runNode env n c).visited ++ (runForest env rest (runNode env n c).count).visited,
       (runNode env n c).accepted ++ (runForest env rest (runNode env n c).count).accepted,
       (runForest env rest (runNode env n c).count).count⟩ := by
  rw [runForest, if_neg hc]

theorem runNode_template (env : Env) (t : String) (attrs : List (String × String))
    (cs : List DomNode) (c : ℕ) (ht : t = "template") :
    runNode env (DomNode.elem t attrs cs) c =
      ⟨DomNode.elem t attrs cs, [DomNode.elem t attrs cs], [], c⟩ := by
  rw [runNode, if_pos ht]

theorem runNode_elem (env : Env) (t : String) (attrs : List (String × String))
    (cs : List DomNode) (c : ℕ) (ht : t ≠ "template") :
    runNode env (DomNode.elem t attrs cs) c =
      ⟨DomNode.elem t attrs
        ((runForest env cs (if qualifies (DomNode.elem t attrs cs) then c + 1 else c)).forest ++
          (if qualifies (DomNode.elem t attrs cs) then
            (addBlurryPlaceholder_ env
              ((srcOf (DomNode.elem t attrs cs)).getD "")).toList
           else [])),
       DomNode.elem t attrs cs ::
         (runForest env cs (if qualifies (DomNode.elem t attrs cs) then c + 1 else c)).visited,
       (if qualifies (DomNode.elem t attrs cs) then [DomNode.elem t attrs cs] else []) ++
         (runForest env cs (if qualifies (DomNode.elem t attrs cs) then c + 1 else c)).accepted,
       (runForest env cs (if qualifies (DomNode.elem t attrs cs) then c + 1 else c)).count⟩ := by
  rw [runNode, if_neg ht]

mutual

theorem runNode_select (env env' : Env) (n : DomNode) (c : ℕ) :
    (runNode env n c).visited = (runNode env' n c).visited ∧
    (runNode env n c).accepted = (runNode env' n c).accepted ∧
    (runNode env n c).count = (runNode env' n c).count := by
  cases n with
  | elem t attrs cs =>
    by_cases ht : t = "template"
    · rw [runNode_template env t attrs cs c ht, runNode_template env' t attrs cs c ht]
      exact ⟨rfl, rfl, rfl⟩
    · rw [runNode_elem env t attrs cs c ht, runNode_elem env' t attrs cs c ht]
      have h := runForest_select env env' cs
        (if qualifies (DomNode.elem t attrs cs) then c + 1 else c)
      exact ⟨by rw [h.1], by rw [h.2.1], h.2.2⟩

theorem runForest_select (env env' : Env) (ns : List DomNode) (c : ℕ) :
    (runForest env ns c).visited = (runForest env' ns c).visited ∧
    (runForest env ns c).accepted = (runForest env' ns c).accepted ∧
    (runForest env ns c).count = (runForest env' ns c).count := by
  cases ns with
  | nil => rw [runForest_nil, runForest_nil]; exact ⟨rfl, rfl, rfl⟩
  | cons n rest =>
    by_cases hc : MAX_BLURRED_PLACEHOLDERS ≤ c
    · rw [runForest_capped env _ c hc, runForest_capped env' _ c hc]
      exact ⟨rfl, rfl, rfl⟩
    · rw [runForest_cons env n rest c hc, runForest_cons env' n rest c hc]
      have hn := runNode_select env env' n c
      have hr := runForest_select env env' rest (runNode env' n c).count
      exact ⟨by rw [hn.1, hn.2.2, hr.1], by rw [hn.2.1, hn.2.2, hr.2.1],
        by rw [hn.2.2, hr.2.2]⟩

end

mutual

theorem runNode_count (env : Env) (n : DomNode) (c : ℕ) :
    (runNode env n c).count = c + (runNode env n c).accepted.length := by
  cases n with
  | elem t attrs cs =>
    by_cases ht : t = "template"
    · rw [runNode_template env t attrs cs c ht]
      rfl
    · rw [runNode_elem env t attrs cs c ht]
      have h := runForest_count env cs
        (if qualifies (DomNode.elem t attrs cs) then c + 1 else c)
      by_cases hacc : qualifies (DomNode.elem t attrs cs) = true <;>
        simp only [hacc, if_true, if_false, Bool.false_eq_true, if_pos, if_neg,
          ite_true, ite_false] at h ⊢ <;>
        simp only [List.length_append, List.length_cons, List.length_nil,
          List.nil_append, List.singleton_append] <;>
        omega

theorem runForest_count (env : Env) (ns : List DomNode) (c : ℕ) :
    (runForest env ns c).count = c + (runForest env ns c).accepted.length := by
  cases ns with
  | nil => rw [runForest_nil]; rfl
  | cons n rest =>
    by_cases hc : MAX_BLURRED_PLACEHOLDERS ≤ c
    · rw [runForest_capped env _ c hc]
      rfl
    · rw [runForest_cons env n rest c hc]
      have hn := runNode_count env n c
      have hr := runForest_count env rest (runNode env n c).count
      simp only [List.length_append]
      omega

end

theorem prunedForest_nil : prunedForest [] = [] := by rw [prunedForest]

theorem prunedForest_cons (n : DomNode) (rest : List DomNode) :
    prunedForest (n :: rest) = prunedNode n ++ prunedForest rest := by
  rw [prunedForest]

theorem prunedNode_template (t : String) (attrs : List (String × String))
    (cs : List DomNode) (ht : t = "template") :
    prunedNode (DomNode.elem t attrs cs) = [DomNode.elem t attrs cs] := by
  rw [prunedNode, if_pos ht]

theorem prunedNode_elem (t : String) (attrs : List (String × String))
    (cs : List DomNode) (ht : t ≠ "template") :
    prunedNode (DomNode.elem t attrs cs) =
      DomNode.elem t attrs cs :: prunedForest cs := by
  rw [prunedNode, if_neg ht]

theorem qualifies_template (attrs : List (String × String)) (cs : List DomNode) :
    qualifies (DomNode.elem "template" attrs cs) = false := by
  apply qualifies_tag_ne
  · show "template" ≠ "amp-img"
    decide
  · show "template" ≠ "amp-video"
    decide

mutual

theorem runNode_take (env : Env) (n : DomNode) (c : ℕ)
    (hc : c < MAX_BLURRED_PLACEHOLDERS) :
    (runNode env n c).accepted =
      ((prunedNode n).filter qualifies).take (MAX_BLURRED_PLACEHOLDERS - c) := by
  cases n with
  | elem t attrs cs =>
    by_cases ht : t = "template"
    · rw [runNode_template env t attrs cs c ht, prunedNode_template t attrs cs ht]
      subst ht
      simp [List.filter, qualifies_template]
    · rw [runNode_elem env t attrs cs c ht, prunedNode_elem t attrs cs ht]
      have hforest := runForest_take env cs
        (if qualifies (DomNode.elem t attrs cs) then c + 1 else c)
      by_cases hacc : qualifies (DomNode.elem t attrs cs) = true
      · rw [if_pos hacc] at hforest
        simp only [hacc, if_true, ite_true]
        rw [List.filter_cons_of_pos (by rw [hacc]), hforest]
        have hk : MAX_BLURRED_PLACEHOLDERS - c =
            (MAX_BLURRED_PLACEHOLDERS - (c + 1)) + 1 := by omega
        rw [hk, List.take_succ_cons]
        rfl
      · rw [if_neg hacc] at hforest
        simp only [hacc, Bool.false_eq_true, if_false, ite_false]
        rw [List.filter_cons_of_neg (by simpa using hacc), hforest]
        rfl

theorem runForest_take (env : Env) (ns : List DomNode) (c : ℕ) :
    (runForest env ns c).accepted =
      ((prunedForest ns).filter qualifies).take (MAX_BLURRED_PLACEHOLDERS - c) := by
  cases ns with
  | nil => rw [runForest_nil, prunedForest_nil]; simp
  | cons n rest =>
    by_cases hc : MAX_BLURRED_PLACEHOLDERS ≤ c
    · rw [runForest_capped env _ c hc]
      have hz : MAX_BLURRED_PLACEHOLDERS - c = 0 := by omega
      rw [hz, List.take_zero]
    · rw [runForest_cons env n rest c hc, prunedForest_cons, List.filter_append,
        List.take_append_eq_append_take]
      have hn := runNode_take env n c (by omega)
      have hr := runForest_take env rest (runNode env n c).count
      have hcount := runNode_count env n c
      have hlen : (runNode env n c).accepted.length =
          min (MAX_BLURRED_PLACEHOLDERS - c)
            ((prunedNode n).filter qualifies).length := by
        rw [hn, List.length_take]
      have harith : MAX_BLURRED_PLACEHOLDERS - (runNode env n c).count =
          (MAX_BLURRED_PLACEHOLDERS - c) -
            ((prunedNode n).filter qualifies).length := by
        omega
      show (runNode env n c).accepted ++
          (runForest env rest (runNode env n c).count).accepted = _
      rw [hn, hr, harith]

end

mutual

theorem runNode_visited_filter (env : Env) (n : DomNode) (c : ℕ) :
    (runNode env n c).visited.filter qualifies = (runNode env n c).accepted := by
  cases n with
  | elem t attrs cs =>
    by_cases ht : t = "template"
    · rw [runNode_template env t attrs cs c ht]
      subst ht
      simp [List.filter, qualifies_template]
    · rw [runNode_elem env t attrs cs c ht]
      have h := runForest_visited_filter env cs
        (if qualifies (DomNode.elem t attrs cs) then c + 1 else c)
      by_cases hacc : qualifies (DomNode.elem t attrs cs) = true
      · simp only [hacc, ite_true] at h ⊢
        rw [List.filter_cons_of_pos (by rw [hacc]), h]
        rfl
      · simp only [hacc, Bool.false_eq_true, ite_false] at h ⊢
        rw [List.filter_cons_of_neg (by simpa using hacc), h]
        rfl

theorem runForest_visited_filter (env : Env) (ns : List DomNode) (c : ℕ) :
    (runForest env ns c).visited.filter qualifies = (runForest env ns c).accepted := by
  cases ns with
  | nil => rw [runForest_nil]; rfl
  | cons n rest =>
    by_cases hc : MAX_BLURRED_PLACEHOLDERS ≤ c
    · rw [runForest_capped env _ c hc]; rfl
    · rw [runForest_cons env n rest c hc]
      show ((runNode env n c).visited ++ _).filter qualifies = _
      rw [List.filter_append, runNode_visited_filter env n c,
        runForest_visited_filter env rest (runNode env n c).count]

end

mutual

theorem runNode_visited_front (env : Env) (n : DomNode) (c : ℕ) :
    (runNode env n c).visited <+: prunedNode n ∧
    ((runNode env n c).visited = prunedNode n ∨
      MAX_BLURRED_PLACEHOLDERS ≤ (runNode env n c).count) := by
  cases n with
  | elem t attrs cs =>
    by_cases ht : t = "template"
    · rw [runNode_template env t attrs cs c ht, prunedNode_template t attrs cs ht]
      exact ⟨List.prefix_refl _, Or.inl rfl⟩
    · rw [runNode_elem env t attrs cs c ht, prunedNode_elem t attrs cs ht]
      have h := runForest_visited_front env cs
        (if qualifies (DomNode.elem t attrs cs) then c + 1 else c)
      constructor
      · obtain ⟨tl, htl⟩ := h.1
        exact ⟨tl, by rw [List.cons_append, htl]⟩
      · rcases h.2 with hfull | hcap
        · exact Or.inl (by rw [hfull])
        · exact Or.inr hcap

theorem runForest_visited_front (env : Env) (ns : List DomNode) (c : ℕ) :
    (runForest env ns c).visited <+: prunedForest ns ∧
    ((runForest env ns c).visited = prunedForest ns ∨
      MAX_BLURRED_PLACEHOLDERS ≤ (runForest env ns c).count) := by
  cases ns with
  | nil => rw [runForest_nil, prunedForest_nil]; exact ⟨List.prefix_refl _, Or.inl rfl⟩
  | cons n rest =>
    by_cases hc : MAX_BLURRED_PLACEHOLDERS ≤ c
    · rw [runForest_capped env _ c hc]
      exact ⟨List.nil_prefix, Or.inr hc⟩
    · rw [runForest_cons env n rest c hc, prunedForest_cons]
      have hn := runNode_visited_front env n c
      rcases hn.2 with hfull | hcap
      · have hr := runForest_visited_front env rest (runNode env n c).count
        constructor
        · obtain ⟨tl, htl⟩ := hr.1
          exact ⟨tl, by rw [hfull, List.append_assoc, htl]⟩
        · rcases hr.2 with hfull2 | hcap2
          · exact Or.inl (by rw [hfull, hfull2])
          · exact Or.inr hcap2
      · rw [runForest_capped env rest _ hcap]
        constructor
        · show (runNode env n c).visited ++ [] <+: _
          rw [List.append_nil]
          exact hn.1.trans (List.prefix_append _ _)
        · exact Or.inr hcap

end

mutual

theorem runNode_reach (env : Env) (n : DomNode) (c : ℕ) (x : DomNode) :
    x ∈ (runNode env n c).visited → PReach n x := by
  cases n with
  | elem t attrs cs =>
    by_cases ht : t = "template"
    · rw [runNode_template env t attrs cs c ht]
      intro hx
      rw [List.mem_singleton] at hx
      subst hx
      exact PReach.refl _
    · rw [runNode_elem env t attrs cs c ht]
      intro hx
      rcases List.mem_cons.mp hx with hx | hx
      · subst hx
        exact PReach.refl _
      · obtain ⟨r, hr, hrx⟩ := runForest_reach env cs
          (if qualifies (DomNode.elem t attrs cs) then c + 1 else c) x hx
        exact PReach.child _ r x (by simpa [DomNode.tagName] using ht) hr hrx

theorem runForest_reach (env : Env) (ns : List DomNode) (c : ℕ) (x : DomNode) :
    x ∈ (runForest env ns c).visited → ∃ r ∈ ns, PReach r x := by
  cases ns with
  | nil =>
    rw [runForest_nil]
    intro hx
    exact absurd hx (List.not_mem_nil x)
  | cons n rest =>
    by_cases hc : MAX_BLURRED_PLACEHOLDERS ≤ c
    · rw [runForest_capped env _ c hc]
      intro hx
      exact absurd hx (List.not_mem_nil x)
    · rw [runForest_cons env n rest c hc]
      intro hx
      rcases List.mem_append.mp hx with hx | hx
      · exact ⟨n, List.mem_cons_self n rest, runNode_reach env n c x hx⟩
      · obtain ⟨r, hr, hrx⟩ :=
          runForest_reach env rest (runNode env n c).count x hx
        exact ⟨r, List.mem_cons_of_mem n hr, hrx⟩

end

theorem isBlurryMarked_children (t : String) (a : List (String × String))
    (cs cs' : List DomNode) :
    isBlurryMarked (DomNode.elem t a cs') = isBlurryMarked (DomNode.elem t a cs) := rfl

mutual

theorem runNode_countPH (env : Env) (n : DomNode) (c : ℕ) :
    countPHNode (runNode env n c).tree =
      countPHNode n +
        ((runNode env n c).accepted.filter (fun m => unitOk env m)).length := by
  cases n with
  | elem t attrs cs =>
    by_cases ht : t = "template"
    · rw [runNode_template env t attrs cs c ht]
      simp
    · rw [runNode_elem env t attrs cs c ht]
      have hrec := runForest_countPH env cs
        (if qualifies (DomNode.elem t attrs cs) then c + 1 else c)
      by_cases hacc : qualifies (DomNode.elem t attrs cs) = true
      · simp only [hacc, ite_true] at hrec ⊢
        show countPHNode (DomNode.elem t attrs
            ((runForest env cs (c + 1)).forest ++
              (addBlurryPlaceholder_ env
                ((srcOf (DomNode.elem t attrs cs)).getD "")).toList)) = _
        rw [countPHNode, countPHNode, countPH_append, hrec,
          isBlurryMarked_children t attrs cs, addBlurry_countPH,
          List.singleton_append, List.filter_cons]
        by_cases hok : unitOk env (DomNode.elem t attrs cs) = true
        · have hok' : (addBlurryPlaceholder_ env
              ((srcOf (DomNode.elem t attrs cs)).getD "")).isSome = true := hok
          rw [if_pos hok, if_pos hok', List.length_cons]
          omega
        · have hok' : ¬ (addBlurryPlaceholder_ env
              ((srcOf (DomNode.elem t attrs cs)).getD "")).isSome = true := hok
          rw [if_neg hok, if_neg hok']
          omega
      · simp only [hacc, Bool.false_eq_true, ite_false] at hrec ⊢
        show countPHNode (DomNode.elem t attrs
            ((runForest env cs c).forest ++ [])) = _
        rw [List.append_nil, countPHNode, countPHNode, hrec,
          isBlurryMarked_children t attrs cs, List.nil_append]
        omega

theorem runForest_countPH (env : Env) (ns : List DomNode) (c : ℕ) :
    countPH (runForest env ns c).forest =
      countPH ns +
        ((runForest env ns c).accepted.filter (fun m => unitOk env m)).length := by
  cases ns with
  | nil => rw [runForest_nil]; rfl
  | cons n rest =>
    by_cases hc : MAX_BLURRED_PLACEHOLDERS ≤ c
    · rw [runForest_capped env _ c hc]
      simp
    · rw [runForest_cons env n rest c hc]
      have hn := runNode_countPH env n c
      have hr := runForest_countPH env rest (runNode env n c).count
      show countPH ((runNode env n c).tree :: _) = _
      rw [countPH, countPH, hn, hr, List.filter_append, List.length_append]
      omega

end

/-- C1: per-element failure isolation.  The traversal's visited, accepted
and counter outcomes are identical under any two environments — in
particular a decode failure in one unit cannot change which other elements
are selected — and the number of marker-classed placeholder nodes in the
rewritten forest is exactly the input count plus one per accepted element
whose unit succeeded: a failing unit (whose caught, logged rejection yields
no image) adds no placeholder for its element, and every other accepted
element with a successful decode still receives its own.  The walk is a
total function, which models the overall promise resolving rather than
rejecting. -/
theorem C1_partial_failure_isolated (env env' : Env) (ns : List DomNode) (c : ℕ) :
    ((runForest env ns c).visited = (runForest env' ns c).visited ∧
     (runForest env ns c).accepted = (runForest env' ns c).accepted ∧
     (runForest env ns c).count = (runForest env' ns c).count) ∧
    countPH (runForest env ns c).forest =
      countPH ns +
        ((runForest env ns c).accepted.filter (fun m => unitOk env m)).length :=
  ⟨runForest_select env env' ns c, runForest_countPH env ns c⟩

/-- C4: the accepted candidates of a walk entered with counter `c` are
exactly the first `5 - c` qualifying nodes of the template-pruned pre-order
enumeration (for a fresh run, the first 5 in document order), hence at most
`5 - c` many; every visited qualifying node is accepted — the loop breaks
immediately after the fifth acceptance, so no qualifying node is ever
visited and passed over — and the visited nodes form a prefix of the
pruned pre-order, so everything beyond the stop point is never visited. -/
theorem C4_cap_first_five (env : Env) (ns : List DomNode) (c : ℕ) :
    (runForest env ns c).accepted =
      ((prunedForest ns).filter qualifies).take (MAX_BLURRED_PLACEHOLDERS - c) ∧
    (runForest env ns c).accepted.length ≤ MAX_BLURRED_PLACEHOLDERS - c ∧
    (runForest env ns c).visited.filter qualifies = (runForest env ns c).accepted ∧
    (runForest env ns c).visited <+: prunedForest ns :=
  ⟨runForest_take env ns c,
   by rw [runForest_take env ns c]; exact List.length_take_le _ _,
   runForest_visited_filter env ns c,
   (runForest_visited_front env ns c).1⟩

/-- C8: every node the walk visits — and a fortiori every node it accepts,
counts toward the cap, or gives a placeholder — is reachable from the body
by child steps that never pass through a template-like container; and on a
template node the loop body returns the subtree untouched, visits only the
template element itself, accepts nothing and leaves the counter unchanged
(the cursor advances past the entire subtree). -/
theorem C8_template_subtree_skipped (env : Env) (body x : DomNode) (c : ℕ) :
    (x ∈ (runForest env [body] c).visited → PReach body x) ∧
    (x ∈ (runForest env [body] c).accepted → PReach body x) ∧
    (∀ t a cs, t = "template" →
      runNode env (DomNode.elem t a cs) c =
        ⟨DomNode.elem t a cs, [DomNode.elem t a cs], [], c⟩) := by
  refine ⟨?_, ?_, ?_⟩
  · intro hx
    obtain ⟨r, hr, hrx⟩ := runForest_reach env [body] c x hx
    rw [List.mem_singleton] at hr
    subst hr
    exact hrx
  · intro hx
    rw [← runForest_visited_filter env [body] c] at hx
    have hx' := List.mem_of_mem_filter hx
    obtain ⟨r, hr, hrx⟩ := runForest_reach env [body] c x hx'
    rw [List.mem_singleton] at hr
    subst hr
    exact hrx
  · intro t a cs ht
    exact runNode_template env t a cs c ht

/-- C8, witness: in a body holding a template-wrapped image and a plain
image, the plain image is visited and reachable without entering the
template, and the loop body on the template leaves it untouched. -/
theorem C8_template_subtree_skipped_witness :
    PReach bodyT (sampleImg "a.jpg") ∧
    runNode envOk tmplNode 0 = ⟨tmplNode, [tmplNode], [], 0⟩ := by
  constructor
  · apply (C8_template_subtree_skipped envOk bodyT (sampleImg "a.jpg") 0).1
    have hv : (runForest envOk [bodyT] 0).visited =
        [bodyT, tmplNode, sampleImg "a.jpg"] := rfl
    rw [hv]
    exact List.mem_cons_of_mem _ (List.mem_cons_of_mem _ (List.mem_cons_self _ _))
  · exact (C8_template_subtree_skipped envOk bodyT bodyT 0).2.2 "template" []
      [sampleImg "t.jpg"] rfl

/-! Rewrite relation `Expands`: what one run of the transform may do to a
tree. -/

mutual

theorem expandsRefl (n : DomNode) : Expands n n := by
  cases n with
  | elem t a cs =>
    have h := Expands.mk t a cs cs [] (expandsReflForest cs) (Or.inl rfl)
    rwa [List.append_nil] at h

theorem expandsReflForest (ns : List DomNode) : List.Forall₂ Expands ns ns := by
  cases ns with
  | nil => exact List.Forall₂.nil
  | cons n rest => exact List.Forall₂.cons (expandsRefl n) (expandsReflForest rest)

end

mutual

theorem runNode_expands (env : Env) (n : DomNode) (c : ℕ) :
    Expands n (runNode env n c).tree := by
  cases n with
  | elem t attrs cs =>
    by_cases ht : t = "template"
    · rw [runNode_template env t attrs cs c ht]
      exact expandsRefl _
    · rw [runNode_elem env t attrs cs c ht]
      apply Expands.mk t attrs cs _ _
        (runForest_expands env cs
          (if qualifies (DomNode.elem t attrs cs) then c + 1 else c))
      by_cases hacc : qualifies (DomNode.elem t attrs cs) = true
      · rw [if_pos hacc]
        cases hadd : addBlurryPlaceholder_ env
            ((srcOf (DomNode.elem t attrs cs)).getD "") with
        | none => exact Or.inl rfl
        | some img =>
          have hs := addBlurry_shape env _ img hadd
          exact Or.inr ⟨img, rfl, hs.1, hs.2.1⟩
      · rw [if_neg hacc]
        exact Or.inl rfl

theorem runForest_expands (env : Env) (ns : List DomNode) (c : ℕ) :
    List.Forall₂ Expands ns (runForest env ns c).forest := by
  cases ns with
  | nil => rw [runForest_nil]; exact List.Forall₂.nil
  | cons n rest =>
    by_cases hc : MAX_BLURRED_PLACEHOLDERS ≤ c
    · rw [runForest_capped env _ c hc]
      exact expandsReflForest _
    · rw [runForest_cons env n rest c hc]
      exact List.Forall₂.cons (runNode_expands env n c)
        (runForest_expands env rest (runNode env n c).count)

end

theorem Expands.tag_eq {a b : DomNode} (h : Expands a b) :
    b.tagName = a.tagName ∧ b.attribs = a.attribs := by
  cases h with
  | mk t at_ cs cs' extra hf hex => exact ⟨rfl, rfl⟩

theorem getAttr_congr (a b : DomNode) (ha : b.attribs = a.attribs) (k : String) :
    b.getAttr k = a.getAttr k := by
  rw [DomNode.getAttr, DomNode.getAttr, ha]

theorem srcOf_congr (a b : DomNode) (ht : b.tagName = a.tagName)
    (ha : b.attribs = a.attribs) : srcOf b = srcOf a := by
  rw [srcOf, srcOf, ht, getAttr_congr a b ha "src", getAttr_congr a b ha "poster"]

theorem forall2_any_placeholder (cs cs' : List DomNode)
    (h : List.Forall₂ Expands cs cs')
    (hp : cs.any (fun child => (child.getAttr "placeholder").isSome) = true) :
    cs'.any (fun child => (child.getAttr "placeholder").isSome) = true := by
  induction h with
  | nil => exact hp
  | cons ha hrest ih =>
    rw [List.any_cons] at hp ⊢
    rcases Bool.or_eq_true_iff.mp hp with hx | hx
    · rw [getAttr_congr _ _ ha.tag_eq.2 "placeholder", hx]
      rfl
    · rw [ih hx, Bool.or_true]

theorem hasPlaceholder_expands (a b : DomNode) (h : Expands a b)
    (hp : hasPlaceholder_ a = true) : hasPlaceholder_ b = true := by
  cases h with
  | mk t at_ cs cs' extra hf hex =>
    rw [hasPlaceholder_] at hp ⊢
    rw [DomNode.childNodes] at hp ⊢
    rw [List.any_append, forall2_any_placeholder cs cs' hf hp]
    rfl

theorem qualifies_expands (a b : DomNode) (h : Expands a b)
    (hq : qualifies b = true) : qualifies a = true := by
  have htag := h.tag_eq
  rw [qualifies_iff] at hq ⊢
  obtain ⟨h1, h2, h3, h4, h5⟩ := hq
  rw [srcOf_congr a b htag.1 htag.2] at h1 h3
  rw [htag.1] at h4 h5
  rw [getAttr_congr a b htag.2 "noloading"] at h4
  rw [getAttr_congr a b htag.2 "layout"] at h5
  refine ⟨h1, ?_, h3, h4, h5⟩
  by_contra hconp
  rw [Bool.not_eq_false] at hconp
  rw [hasPlaceholder_expands a b h hconp] at h2
  exact absurd h2 (by simp)

theorem prunedForest_append (a b : List DomNode) :
    prunedForest (a ++ b) = prunedForest a ++ prunedForest b := by
  induction a with
  | nil => rw [prunedForest_nil, List.nil_append, List.nil_append]
  | cons n rest ih =>
    rw [List.cons_append, prunedForest_cons, prunedForest_cons, ih,
      List.append_assoc]

mutual

theorem runNode_id_of_none (env : Env) (n : DomNode) (c : ℕ)
    (h : (prunedNode n).filter qualifies = []) :
    (runNode env n c).tree = n ∧ (runNode env n c).accepted = [] ∧
      (runNode env n c).count = c := by
  cases n with
  | elem t attrs cs =>
    by_cases ht : t = "template"
    · rw [runNode_template env t attrs cs c ht]
      exact ⟨rfl, rfl, rfl⟩
    · rw [prunedNode_elem t attrs cs ht, List.filter_cons] at h
      by_cases hq : qualifies (DomNode.elem t attrs cs) = true
      · rw [if_pos hq] at h
        exact absurd h (by simp)
      · rw [if_neg hq] at h
        rw [runNode_elem env t attrs cs c ht]
        have hrest := runForest_id_of_none env cs c h
        simp only [hq, Bool.false_eq_true, ite_false]
        refine ⟨?_, ?_, ?_⟩
        · show DomNode.elem t attrs ((runForest env cs c).forest ++ []) = _
          rw [List.append_nil, hrest.1]
        · show [] ++ (runForest env cs c).accepted = []
          rw [List.nil_append, hrest.2.1]
        · exact hrest.2.2

theorem runForest_id_of_none (env : Env) (ns : List DomNode) (c : ℕ)
    (h : (prunedForest ns).filter qualifies = []) :
    (runForest env ns c).forest = ns ∧ (runForest env ns c).accepted = [] ∧
      (runForest env ns c).count = c := by
  cases ns with
  | nil => rw [runForest_nil]; exact ⟨rfl, rfl, rfl⟩
  | cons n rest =>
    by_cases hc : MAX_BLURRED_PLACEHOLDERS ≤ c
    · rw [runForest_capped env _ c hc]
      exact ⟨rfl, rfl, rfl⟩
    · rw [prunedForest_cons, List.filter_append, List.append_eq_nil] at h
      rw [runForest_cons env n rest c hc]
      have hn := runNode_id_of_none env n c h.1
      have hr := runForest_id_of_none env rest (runNode env n c).count h.2
      refine ⟨by rw [hn.1, hr.1], by rw [hn.2.1, hr.2.1, List.nil_append],
        by rw [hr.2.2, hn.2.2]⟩

end

mutual

theorem runNode_clears (env : Env) (n : DomNode) (c : ℕ)
    (hdec : ∀ s, (env.decode s).isSome = true)
    (hbud : c + ((prunedNode n).filter qualifies).length ≤
      MAX_BLURRED_PLACEHOLDERS) :
    (prunedNode (runNode env n c).tree).filter qualifies = [] := by
  cases n with
  | elem t attrs cs =>
    by_cases ht : t = "template"
    · rw [runNode_template env t attrs cs c ht, prunedNode_template t attrs cs ht]
      subst ht
      simp [List.filter, qualifies_template]
    · rw [prunedNode_elem t attrs cs ht, List.filter_cons] at hbud
      rw [runNode_elem env t attrs cs c ht]
      by_cases hacc : qualifies (DomNode.elem t attrs cs) = true
      · rw [if_pos hacc, List.length_cons] at hbud
        simp only [hacc, ite_true]
        have hsome : (addBlurryPlaceholder_ env
            ((srcOf (DomNode.elem t attrs cs)).getD "")).isSome = true := by
          rw [addBlurry_isSome]
          exact hdec _
        obtain ⟨img, himg⟩ := Option.isSome_iff_exists.mp hsome
        have hshape := addBlurry_shape env _ img himg
        have hchild := runForest_clears env cs (c + 1) hdec (by omega)
        rw [himg]
        show (prunedNode (DomNode.elem t attrs
          ((runForest env cs (c + 1)).forest ++ [img]))).filter
            qualifies = []
        rw [prunedNode_elem t attrs _ ht]
        have himgq : qualifies img = false := by
          apply qualifies_tag_ne
          · rw [hshape.1]; decide
          · rw [hshape.1]; decide
        have hparq : qualifies (DomNode.elem t attrs
            ((runForest env cs (c + 1)).forest ++ [img])) = false := by
          apply placeholder_child_disqualifies _ img
          · rw [DomNode.childNodes]
            exact List.mem_append.mpr (Or.inr (List.mem_singleton.mpr rfl))
          · exact hshape.2.1
        rw [List.filter_cons_of_neg (by simp [hparq]), prunedForest_append,
          List.filter_append, hchild, List.nil_append]
        cases img with
        | elem ti ai ci =>
          have hti : ti = "img" := hshape.1
          have hci : ci = [] := hshape.2.2
          subst hti
          subst hci
          show (prunedForest [DomNode.elem "img" ai []]).filter qualifies = []
          rw [prunedForest_cons, prunedForest_nil, List.append_nil,
            prunedNode_elem _ ai [] (by decide), prunedForest_nil]
          rw [List.filter_cons_of_neg (by simp [himgq]), List.filter_nil]
      · rw [if_neg hacc] at hbud
        simp only [hacc, Bool.false_eq_true, ite_false]
        have hchild := runForest_clears env cs c hdec hbud
        show (prunedNode (DomNode.elem t attrs
          ((runForest env cs c).forest ++ []))).filter qualifies = []
        rw [List.append_nil, prunedNode_elem t attrs _ ht]
        have hparq : qualifies (DomNode.elem t attrs
            ((runForest env cs c).forest)) = false := by
          by_contra hcon
          rw [Bool.not_eq_false] at hcon
          have hexp : Expands (DomNode.elem t attrs cs)
              (DomNode.elem t attrs ((runForest env cs c).forest)) := by
            have h := Expands.mk t attrs cs (runForest env cs c).forest []
              (runForest_expands env cs c) (Or.inl rfl)
            rwa [List.append_nil] at h
          exact hacc (qualifies_expands _ _ hexp hcon)
        rw [List.filter_cons_of_neg (by simp [hparq]), hchild]

theorem runForest_clears (env : Env) (ns : List DomNode) (c : ℕ)
    (hdec : ∀ s, (env.decode s).isSome = true)
    (hbud : c + ((prunedForest ns).filter qualifies).length ≤
      MAX_BLURRED_PLACEHOLDERS) :
    (prunedForest (runForest env ns c).forest).filter qualifies = [] := by
  cases ns with
  | nil => rw [runForest_nil, prunedForest_nil]; rfl
  | cons n rest =>
    by_cases hc : MAX_BLURRED_PLACEHOLDERS ≤ c
    · rw [runForest_capped env _ c hc]
      have hz : ((prunedForest (n :: rest)).filter qualifies).length = 0 := by
        omega
      rwa [List.length_eq_zero] at hz
    · rw [prunedForest_cons, List.filter_append, List.length_append] at hbud
      rw [runForest_cons env n rest c hc]
      show (prunedForest ((runNode env n c).tree ::
        (runForest env rest (runNode env n c).count).forest)).filter
          qualifies = []
      rw [prunedForest_cons, List.filter_append]
      have hn := runNode_clears env n c hdec (by omega)
      have hcnt := runNode_count env n c
      have htake := runNode_take env n c (by omega)
      have hlen : (runNode env n c).accepted.length =
          ((prunedNode n).filter qualifies).length := by
        rw [htake, List.length_take]
        omega
      have hr := runForest_clears env rest (runNode env n c).count hdec (by omega)
      rw [hn, hr, List.append_nil]

end

/-! Plumbing for the transform entry point. -/

theorem DomNode.eta (n : DomNode) :
    DomNode.elem n.tagName n.attribs n.childNodes = n := by
  cases n
  rfl

theorem firstChildByTag_tag (n m : DomNode) (tag : String)
    (h : firstChildByTag n tag = some m) : m.tagName = tag := by
  rw [firstChildByTag] at h
  have := List.find?_some h
  exact of_decide_eq_true this

theorem find_replaceFirst (cs : List DomNode) (tag : String) (nn m : DomNode)
    (hfind : cs.find? (fun c => c.tagName = tag) = some m)
    (hnn : nn.tagName = tag) :
    (replaceFirstByTag cs tag nn).find? (fun c => c.tagName = tag) = some nn := by
  induction cs with
  | nil => exact absurd hfind (by simp)
  | cons x rest ih =>
    by_cases hx : x.tagName = tag
    · rw [replaceFirstByTag, if_pos hx]
      rw [List.find?_cons_of_pos _ (by simpa using hnn)]
    · rw [replaceFirstByTag, if_neg hx]
      rw [List.find?_cons_of_neg _ (by simpa using hx)] at hfind
      rw [List.find?_cons_of_neg _ (by simpa using hx)]
      exact ih hfind

theorem replaceFirst_idem (cs : List DomNode) (tag : String) (nn : DomNode)
    (hnn : nn.tagName = tag) :
    replaceFirstByTag (replaceFirstByTag cs tag nn) tag nn =
      replaceFirstByTag cs tag nn := by
  induction cs with
  | nil => rfl
  | cons x rest ih =>
    by_cases hx : x.tagName = tag
    · rw [replaceFirstByTag, if_pos hx, replaceFirstByTag, if_pos hnn]
    · rw [replaceFirstByTag, if_neg hx, replaceFirstByTag, if_neg hx, ih]

theorem transform_eq (env : Env) (root html body : DomNode)
    (hh : firstChildByTag root "html" = some html)
    (hb : firstChildByTag html "body" = some body) :
    transform env root = some (DomNode.elem root.tagName root.attribs
      (replaceFirstByTag root.childNodes "html"
        (DomNode.elem html.tagName html.attribs
          (replaceFirstByTag html.childNodes "body"
            ((runForest env [body] 0).forest.headD body))))) := by
  simp only [transform, hh, hb]

/-- C5 (amended): an element that already owns a placeholder-flagged child
never qualifies, so the transform appends nothing to it; consequently a
second run of the transform returns the tree of the first run unchanged —
*provided* the first run was not cut short by the 5-placeholder cap (at
most 5 qualifying nodes) and every unit's decode succeeded.  (When the cap
was hit, a second run adds placeholders to qualifying elements beyond the
first five, as the counterexample shows.) -/
theorem C5_idempotent_under_cap (env : Env) (root html body : DomNode)
    (hdec : ∀ s, (env.decode s).isSome = true)
    (hh : firstChildByTag root "html" = some html)
    (hb : firstChildByTag html "body" = some body)
    (hbud : ((prunedForest [body]).filter qualifies).length ≤
      MAX_BLURRED_PLACEHOLDERS) :
    (∀ n child : DomNode, child ∈ n.childNodes →
      (child.getAttr "placeholder").isSome → qualifies n = false) ∧
    ∃ r1, transform env root = some r1 ∧ transform env r1 = some r1 := by
  refine ⟨fun n child hmem hattr =>
    placeholder_child_disqualifies n child hmem hattr, ?_⟩
  obtain ⟨b', hF, hExp⟩ : ∃ b', (runForest env [body] 0).forest = [b'] ∧
      Expands body b' := by
    have hforest := runForest_expands env [body] 0
    cases hf : (runForest env [body] 0).forest with
    | nil => rw [hf] at hforest; cases hforest
    | cons b' tl =>
      rw [hf] at hforest
      cases hforest with
      | cons hbb htl =>
        cases htl
        exact ⟨b', rfl, hbb⟩
  have hbtag : b'.tagName = "body" := by
    rw [hExp.tag_eq.1]
    exact firstChildByTag_tag html body "body" hb
  have hhtag : html.tagName = "html" := firstChildByTag_tag root html "html" hh
  have hclear : (prunedForest [b']).filter qualifies = [] := by
    have h := runForest_clears env [body] 0 hdec (by omega)
    rwa [hF] at h
  have hid := runForest_id_of_none env [b'] 0 hclear
  refine ⟨DomNode.elem root.tagName root.attribs
    (replaceFirstByTag root.childNodes "html"
      (DomNode.elem html.tagName html.attribs
        (replaceFirstByTag html.childNodes "body" b'))),
    ?_, ?_⟩
  · rw [transform_eq env root html body hh hb, hF]
    rfl
  · set html1 := DomNode.elem html.tagName html.attribs
      (replaceFirstByTag html.childNodes "body" b') with hhtml1
    set r1 := DomNode.elem root.tagName root.attribs
      (replaceFirstByTag root.childNodes "html" html1) with hr1
    have hh1 : firstChildByTag r1 "html" = some html1 := by
      rw [hr1]
      show (replaceFirstByTag root.childNodes "html" html1).find?
        (fun c => c.tagName = "html") = some html1
      exact find_replaceFirst root.childNodes "html" html1 html hh
        (by rw [hhtml1, DomNode.tagName, hhtag])
    have hb1 : firstChildByTag html1 "body" = some b' := by
      rw [hhtml1]
      show (replaceFirstByTag html.childNodes "body" b').find?
        (fun c => c.tagName = "body") = some b'
      exact find_replaceFirst html.childNodes "body" b' body hb hbtag
    rw [transform_eq env r1 html1 b' hh1 hb1]
    rw [hid.1]
    show some (DomNode.elem r1.tagName r1.attribs
      (replaceFirstByTag r1.childNodes "html"
        (DomNode.elem html1.tagName html1.attribs
          (replaceFirstByTag html1.childNodes "body" b')))) = some r1
    have hinner : replaceFirstByTag html1.childNodes "body" b' =
        html1.childNodes := by
      rw [hhtml1]
      show replaceFirstByTag (replaceFirstByTag html.childNodes "body" b')
        "body" b' = replaceFirstByTag html.childNodes "body" b'
      exact replaceFirst_idem html.childNodes "body" b' hbtag
    rw [hinner, DomNode.eta html1]
    have houter : replaceFirstByTag r1.childNodes "html" html1 =
        r1.childNodes := by
      rw [hr1]
      show replaceFirstByTag (replaceFirstByTag root.childNodes "html" html1)
        "html" html1 = replaceFirstByTag root.childNodes "html" html1
      exact replaceFirst_idem root.childNodes "html" html1
        (by rw [hhtml1, DomNode.tagName, hhtag])
    rw [houter, DomNode.eta r1]

/-- C5, counterexample: on a document with six qualifying images (one more
than the cap) and an always-succeeding decoder, the first run adds the
capped five placeholders and the second run adds a sixth — so "running the
transform twice in succession on the same tree adds no additional
placeholders on the second run" is false as stated. -/
theorem C5_second_run_counterexample :
    countPH [(transform envOk root6).getD root6] = 5 ∧
    countPH [(transform envOk
      ((transform envOk root6).getD root6)).getD root6] = 6 :=
  ⟨rfl, rfl⟩

/-- C5, witness: on a one-image document the amended theorem applies — the
second run returns the first run's tree unchanged — and a concrete
author-placeholder child blocks its concrete parent. -/
theorem C5_idempotent_under_cap_witness :
    qualifies (DomNode.elem "amp-img" [("src", "a.jpg"), ("layout", "responsive")]
      [DomNode.elem "div" [("placeholder", "")] []]) = false ∧
    ∃ r1, transform envOk root1 = some r1 ∧ transform envOk r1 = some r1 := by
  have h := C5_idempotent_under_cap envOk root1
    (DomNode.elem "html" [] [DomNode.elem "body" [] [sampleImg "1.jpg"]])
    (DomNode.elem "body" [] [sampleImg "1.jpg"])
    (fun _ => rfl) rfl rfl (by decide)
  exact ⟨h.1 _ (DomNode.elem "div" [("placeholder", "")] [])
    (List.mem_singleton.mpr rfl) rfl, h.2⟩

end AmpOptimizer
